import Mathlib

/-!
Verification development for the udp-chat repository.

The development shallowly embeds the frame codec (UDPHeader and UDPMessage in
src/async_udp_server.py), the server dispatcher (ServerChatProtocol and
SqliteGroupLayer), the sqlite storage layer (src/db_sqlite.py, modelled as a
functional state machine), the client endpoint (ClientChatProtocol in
src/async_udp_client.py) and the password hashing helpers
(hash_new_password and is_correct_password, including real SHA-256, HMAC,
PBKDF2 and base64).

Wire bytes are modelled as List Nat (each element a byte value), machine
integers as Nat or Int with explicit reduction modulo powers of two, and
fallible Python code as Except values.  JSON payloads are modelled by the
mutual inductive Json below; the serializer follows json.dumps with its
default options (ensure_ascii, separators comma-space and colon-space) and
the parser follows json.loads on the fragment of JSON that the application
exchanges (ints, strings, booleans, null, arrays, objects; float literals
are outside the model and are rejected by the embedded parser).
-/

namespace UdpChat

/-- Exceptions that the embedded Python code can raise. -/
inductive Exc where
  | itemNotFound      -- ItemNotFoundException from src/exceptions.py
  | itemExists        -- ItemAlreadyExistsException from src/exceptions.py
  | integrityError    -- sqlite3.IntegrityError (NOT NULL / UNIQUE violations)
  | interfaceError    -- sqlite3.InterfaceError (binding an unsupported type)
  | typeError         -- Python TypeError
  | attributeError    -- Python AttributeError
  | valueError        -- Python ValueError (also json malformed data)
  | structError       -- struct.error from pack and unpack
deriving DecidableEq, Repr

/-! ## JSON values

Python values that can appear as a message body.  Json.null models the
Python value None (UDPMessage stores data as None when the payload is
empty, and json.loads of the text null also yields None, so one
constructor models both).  Objects keep their key/value pairs in insertion
order, matching Python dicts. -/

mutual

inductive Json where
  | null : Json
  | bool (b : Bool) : Json
  | num (n : Int) : Json
  | str (s : List Char) : Json
  | arr (xs : JList) : Json
  | obj (xs : JObj) : Json

inductive JList where
  | nil : JList
  | cons (hd : Json) (tl : JList) : JList

inductive JObj where
  | nil : JObj
  | cons (k : List Char) (v : Json) (tl : JObj) : JObj

end

/-- Python truthiness of a JSON-representable value: None, False, 0, the
empty string, the empty list and the empty dict are falsy. -/
def truthy : Json → Bool
  | .null => false
  | .bool b => b
  | .num n => n != 0
  | .str s => !s.isEmpty
  | .arr .nil => false
  | .arr (.cons _ _) => true
  | .obj .nil => false
  | .obj (.cons _ _ _) => true

/-- Lookup of a key in an object, first occurrence wins (parsed objects have
distinct keys, mirroring Python dicts). -/
def JObj.lookup : JObj → List Char → Option Json
  | .nil, _ => none
  | .cons k v tl, key => if k = key then some v else tl.lookup key

/-- Membership of a key among the keys of an object. -/
def JObj.hasKey (o : JObj) (key : List Char) : Bool :=
  (o.lookup key).isSome

/-- Membership test of the string "type" in a JSON array, with Python
equality semantics: a string only ever equals a string. -/
def JList.containsStr : JList → List Char → Bool
  | .nil, _ => false
  | .cons (.str s) tl, key => s = key || tl.containsStr key
  | .cons _ tl, key => tl.containsStr key

/-! ## Serializer: json.dumps with default options -/

/-- Hexadecimal digit character code, lowercase, as produced by the
percent-u escape format of json.dumps. -/
def hexDigit (n : Nat) : Nat :=
  if n < 10 then 48 + n else 87 + n

/-- Four-digit hexadecimal rendering of a code unit. -/
def hex4 (n : Nat) : List Nat :=
  [hexDigit (n / 4096 % 16), hexDigit (n / 256 % 16),
   hexDigit (n / 16 % 16), hexDigit (n % 16)]

/-- Escaping of one character of a JSON string under ensure_ascii: the two
character escapes for quote and backslash, the short escapes for the usual
control characters, unicode escapes for the remaining control characters
and for every non-ASCII character, with surrogate pairs above U+FFFF. -/
def escChar (c : Char) : List Nat :=
  let n := c.toNat
  if n = 34 then [92, 34]
  else if n = 92 then [92, 92]
  else if n = 8 then [92, 98]
  else if n = 9 then [92, 116]
  else if n = 10 then [92, 110]
  else if n = 12 then [92, 102]
  else if n = 13 then [92, 114]
  else if n < 32 then 92 :: 117 :: hex4 n
  else if n < 127 then [n]
  else if n < 65536 then 92 :: 117 :: hex4 n
  else 92 :: 117 :: hex4 (55296 + (n - 65536) / 1024)
       ++ 92 :: 117 :: hex4 (56320 + (n - 65536) % 1024)

/-- Escaped body of a JSON string. -/
def escStr : List Char → List Nat
  | [] => []
  | c :: tl => escChar c ++ escStr tl

/-- Serialized JSON string: quote, escaped body, quote. -/
def serStr (s : List Char) : List Nat :=
  34 :: escStr s ++ [34]

/-- Little-endian decimal digits of a natural number, fuel-driven so that
the definition is structural and kernel-reducible. -/
def dRev : Nat → Nat → List Nat
  | 0, _ => []
  | f + 1, n => if n < 10 then [n] else n % 10 :: dRev f (n / 10)

/-- Decimal rendering of a natural number, as produced by str in Python. -/
def serNat (n : Nat) : List Nat :=
  ((dRev (n + 1) n).reverse).map (fun d => 48 + d)

/-- Decimal rendering of an integer. -/
def serInt (n : Int) : List Nat :=
  if n < 0 then 45 :: serNat n.natAbs else serNat n.natAbs

mutual

/-- Serialization of a value, following json.dumps with the default
separators (comma-space between items, colon-space after keys). -/
def dumps : Json → List Nat
  | .null => [110, 117, 108, 108]
  | .bool true => [116, 114, 117, 101]
  | .bool false => [102, 97, 108, 115, 101]
  | .num n => serInt n
  | .str s => serStr s
  | .arr .nil => [91, 93]
  | .arr (.cons x tl) => 91 :: dumps x ++ dumpsL tl ++ [93]
  | .obj .nil => [123, 125]
  | .obj (.cons k v tl) => 123 :: serStr k ++ 58 :: 32 :: dumps v ++ dumpsO tl ++ [125]

/-- Serialization of the tail of an array: comma-space before each item. -/
def dumpsL : JList → List Nat
  | .nil => []
  | .cons x tl => 44 :: 32 :: dumps x ++ dumpsL tl

/-- Serialization of the tail of an object. -/
def dumpsO : JObj → List Nat
  | .nil => []
  | .cons k v tl => 44 :: 32 :: serStr k ++ 58 :: 32 :: dumps v ++ dumpsO tl

end

/-! ## Parser: json.loads on the embedded fragment -/

/-- Whitespace bytes skipped by the json scanner. -/
def isWs (c : Nat) : Bool :=
  c = 32 || c = 9 || c = 10 || c = 13

/-- Skipping of leading whitespace. -/
def skipWs (cs : List Nat) : List Nat :=
  cs.dropWhile isWs

/-- Decimal digit test on a byte. -/
def isDigitB (c : Nat) : Bool :=
  48 ≤ c && c ≤ 57

/-- Value of one hexadecimal digit character, case insensitive. -/
def hexVal (c : Nat) : Option Nat :=
  if 48 ≤ c && c ≤ 57 then some (c - 48)
  else if 97 ≤ c && c ≤ 102 then some (c - 87)
  else if 65 ≤ c && c ≤ 70 then some (c - 55)
  else none

/-- Value of a four-digit hexadecimal escape. -/
def hex4Val (a b c d : Nat) : Option Nat := do
  let va ← hexVal a
  let vb ← hexVal b
  let vc ← hexVal c
  let vd ← hexVal d
  some (va * 4096 + vb * 256 + vc * 16 + vd)

/-- Code of a single-character escape in a JSON string. -/
def escCode (e : Nat) : Option Nat :=
  if e = 34 then some 34
  else if e = 92 then some 92
  else if e = 47 then some 47
  else if e = 98 then some 8
  else if e = 102 then some 12
  else if e = 110 then some 10
  else if e = 114 then some 13
  else if e = 116 then some 9
  else none

/-- Decoding of one UTF-8 sequence that does not start with an ASCII byte.
Returns the decoded character and the remaining input.  The payload handed
to json.loads is decoded as UTF-8 before scanning; the serializer only
emits ASCII, so this branch only matters for inbound datagrams. -/
def utf8Cont (b : Nat) : Bool :=
  128 ≤ b && b ≤ 191

def utf8Tail (c1 : Nat) (rest : List Nat) : Option (Char × List Nat) :=
  if 194 ≤ c1 && c1 ≤ 223 then
    match rest with
    | c2 :: r => if utf8Cont c2 then some (Char.ofNat ((c1 - 192) * 64 + (c2 - 128)), r) else none
    | _ => none
  else if 224 ≤ c1 && c1 ≤ 239 then
    match rest with
    | c2 :: c3 :: r =>
      let lo : Nat := if c1 = 224 then 160 else 128
      let hi : Nat := if c1 = 237 then 159 else 191
      if (lo ≤ c2 && c2 ≤ hi) && utf8Cont c3 then
        some (Char.ofNat ((c1 - 224) * 4096 + (c2 - 128) * 64 + (c3 - 128)), r)
      else none
    | _ => none
  else if 240 ≤ c1 && c1 ≤ 244 then
    match rest with
    | c2 :: c3 :: c4 :: r =>
      let lo : Nat := if c1 = 240 then 144 else 128
      let hi : Nat := if c1 = 244 then 143 else 191
      if (lo ≤ c2 && c2 ≤ hi) && utf8Cont c3 && utf8Cont c4 then
        some (Char.ofNat ((c1 - 240) * 262144 + (c2 - 128) * 4096 + (c3 - 128) * 64 + (c4 - 128)), r)
      else none
    | _ => none
  else none

/-- Remainder of a unicode escape after the backslash-u prefix: the four
hex digits, with a second escape required and combined after a high
surrogate.  Returns the decoded character and the remaining input. -/
def parseLowSur (n : Nat) : List Nat → Option (Char × List Nat)
  | e1 :: e2 :: a2 :: b2 :: c2 :: d2 :: rest2 =>
    if e1 = 92 ∧ e2 = 117 then do
      let m ← hex4Val a2 b2 c2 d2
      if 56320 ≤ m && m ≤ 57343 then
        some (Char.ofNat (65536 + (n - 55296) * 1024 + (m - 56320)), rest2)
      else none
    else none
  | _ => none

def parseUEsc : List Nat → Option (Char × List Nat)
  | a :: b :: c :: d :: rest => do
    let n ← hex4Val a b c d
    if 55296 ≤ n && n ≤ 56319 then parseLowSur n rest
    else if 56320 ≤ n && n ≤ 57343 then none
    else some (Char.ofNat n, rest)
  | _ => none

/-- Decoding of one escape sequence after the backslash: either a unicode
escape or a single-character escape. -/
def parseEsc : List Nat → Option (Char × List Nat)
  | [] => none
  | e :: rest =>
    if e = 117 then parseUEsc rest
    else do
      let n ← escCode e
      some (Char.ofNat n, rest)

/-- Parsing of the body of a JSON string after the opening quote, fuel
driven.  Strict mode: raw control characters are rejected.  A high
surrogate escape must be followed by a low surrogate escape (the embedding
rejects lone surrogates, which no Python str produced by this application
contains). -/
def parseStrBody : Nat → List Nat → Option (List Char × List Nat)
  | 0, _ => none
  | _ + 1, [] => none
  | f + 1, c :: rest =>
    if c = 34 then some ([], rest)
    else if c = 92 then do
      let (ch, r0) ← parseEsc rest
      let (cs, r) ← parseStrBody f r0
      some (ch :: cs, r)
    else if c < 32 then none
    else if c < 128 then do
      let (cs, r) ← parseStrBody f rest
      some (Char.ofNat c :: cs, r)
    else do
      let (ch, r0) ← utf8Tail c rest
      let (cs, r) ← parseStrBody f r0
      some (ch :: cs, r)

/-- Parsing of a JSON integer literal: optional minus, digit run with no
leading zero, and no fraction or exponent part (float literals are outside
the embedded fragment and are rejected). -/
def digitsVal (ds : List Nat) : Nat :=
  ds.foldl (fun a d => a * 10 + (d - 48)) 0

def parseNatTok (neg : Bool) (cs1 : List Nat) : Option (Int × List Nat) :=
  if (cs1.takeWhile isDigitB).isEmpty then none
  else if (cs1.takeWhile isDigitB).length > 1 && (cs1.takeWhile isDigitB).headD 0 == 48 then none
  else if (cs1.dropWhile isDigitB).head? == some 46
       || (cs1.dropWhile isDigitB).head? == some 101
       || (cs1.dropWhile isDigitB).head? == some 69 then none
  else some (if neg then -(digitsVal (cs1.takeWhile isDigitB) : Int)
             else (digitsVal (cs1.takeWhile isDigitB) : Int), cs1.dropWhile isDigitB)

def parseIntTok (cs : List Nat) : Option (Int × List Nat) :=
  if cs.head? == some 45 then parseNatTok true cs.tail else parseNatTok false cs

/-- Mode of the recursive descent: a single value, the elements of an array
after the opening bracket, or the members of an object after the opening
brace. -/
inductive PK where
  | val : PK
  | elems : PK
  | membs : PK

/-- Recursive descent over the embedded JSON fragment, fuel driven so the
definition is structural.  The elems mode returns an arr value holding the
parsed elements, the membs mode an obj value holding the parsed members. -/
def parseF : Nat → PK → List Nat → Option (Json × List Nat)
  | 0, _, _ => none
  | f + 1, .val, cs =>
    match skipWs cs with
    | [] => none
    | c :: rest =>
      if c = 110 then
        match rest with
        | x1 :: x2 :: x3 :: r =>
          if x1 = 117 ∧ x2 = 108 ∧ x3 = 108 then some (.null, r) else none
        | _ => none
      else if c = 116 then
        match rest with
        | x1 :: x2 :: x3 :: r =>
          if x1 = 114 ∧ x2 = 117 ∧ x3 = 101 then some (.bool true, r) else none
        | _ => none
      else if c = 102 then
        match rest with
        | x1 :: x2 :: x3 :: x4 :: r =>
          if x1 = 97 ∧ x2 = 108 ∧ x3 = 115 ∧ x4 = 101 then some (.bool false, r) else none
        | _ => none
      else if c = 34 then do
        let (s, r) ← parseStrBody (rest.length + 1) rest
        some (.str s, r)
      else if c = 91 then
        let r1 := skipWs rest
        if r1.head? = some 93 then some (.arr .nil, r1.tail)
        else parseF f .elems r1
      else if c = 123 then
        let r1 := skipWs rest
        if r1.head? = some 125 then some (.obj .nil, r1.tail)
        else parseF f .membs r1
      else do
        let (n, r) ← parseIntTok (c :: rest)
        some (.num n, r)
  | f + 1, .elems, cs => do
    let (v, r) ← parseF f .val cs
    match skipWs r with
    | c2 :: r2 =>
      if c2 = 44 then
        (match parseF f .elems r2 with
         | some (.arr tl, r3) => some (.arr (.cons v tl), r3)
         | _ => none)
      else if c2 = 93 then some (.arr (.cons v .nil), r2)
      else none
    | _ => none
  | f + 1, .membs, cs =>
    match skipWs cs with
    | ck :: kr =>
      if ck = 34 then do
        let (k, r) ← parseStrBody (kr.length + 1) kr
        match skipWs r with
        | c2 :: r2 =>
          if c2 = 58 then do
            let (v, r3) ← parseF f .val r2
            match skipWs r3 with
            | c4 :: r4 =>
              if c4 = 44 then
                (match parseF f .membs r4 with
                 | some (.obj tl, r5) => some (.obj (.cons k v tl), r5)
                 | _ => none)
              else if c4 = 125 then some (.obj (.cons k v .nil), r4)
              else none
            | _ => none
          else none
        | _ => none
      else none
    | _ => none

/-- Entry point modelling json.loads: skip surrounding whitespace, parse
one value, and require the input to be fully consumed. -/
def jsonLoads (cs : List Nat) : Except Exc Json :=
  match parseF (2 * cs.length + 2) .val cs with
  | some (j, rest) => if (skipWs rest).isEmpty then .ok j else .error .valueError
  | none => .error .valueError

/-! ## Measures and wellformedness for the round-trip proof -/

mutual

/-- Fuel measure of a value: enough parser steps to read its rendering. -/
def sz : Json → Nat
  | .null => 1
  | .bool _ => 1
  | .num _ => 1
  | .str _ => 1
  | .arr xs => 1 + szL xs
  | .obj xs => 1 + szO xs

def szL : JList → Nat
  | .nil => 0
  | .cons x tl => 1 + sz x + szL tl

def szO : JObj → Nat
  | .nil => 0
  | .cons _ v tl => 1 + sz v + szO tl

end

mutual

/-- Wellformedness of a value as the image of a Python object: every
object has pairwise distinct keys, as a Python dict does. -/
def wfJ : Json → Bool
  | .null => true
  | .bool _ => true
  | .num _ => true
  | .str _ => true
  | .arr xs => wfL xs
  | .obj xs => wfO xs

def wfL : JList → Bool
  | .nil => true
  | .cons x tl => wfJ x && wfL tl

def wfO : JObj → Bool
  | .nil => true
  | .cons k v tl => !tl.hasKey k && wfJ v && wfO tl

end

/-- Bytes that may legally follow a serialized value inside a bigger
rendering: nothing, a comma, a closing bracket or a closing brace. -/
def delimOk : List Nat → Prop
  | [] => True
  | c :: _ => c = 44 ∨ c = 93 ∨ c = 125

/-- A list of whitespace bytes. -/
def allWs (l : List Nat) : Prop :=
  ∀ c ∈ l, isWs c = true

/-- Bytes that may legally follow a number token without extending it into
a float literal: the head is no digit, dot, exponent letter or minus. -/
def numDelim (r : List Nat) : Prop :=
  ∀ c ∈ r.head?, isDigitB c = false ∧ c ≠ 46 ∧ c ≠ 101 ∧ c ≠ 69 ∧ c ≠ 45

/-! ## Frame codec

UDPHeader and UDPMessage from src/async_udp_server.py.  The header format
string is a big-endian int32 followed by three one-byte booleans
(HEADER_FORMAT equal to bang-i-questionmark-questionmark-questionmark),
seven bytes in total. -/

def HEADER_SIZE : Nat := 7

structure UDPHeader where
  SEQN : Int
  ACK : Bool
  SYN : Bool
  FIN : Bool
deriving DecidableEq, Repr

/-- Byte of a packed boolean. -/
def boolByte (b : Bool) : Nat := if b then 1 else 0

/-- The seven packed header bytes: the sequence number in two-complement
big-endian order followed by the three boolean bytes. -/
def headerBytes (h : UDPHeader) : List Nat :=
  let u : Nat := (h.SEQN % 2 ^ 32).toNat
  [u / 2 ^ 24 % 256, u / 2 ^ 16 % 256, u / 2 ^ 8 % 256, u % 256,
   boolByte h.ACK, boolByte h.SYN, boolByte h.FIN]

/-- Packing of the header with struct.pack: the int32 field must lie in the
signed 32-bit range, otherwise struct raises. -/
def UDPHeader.to_bytesE (h : UDPHeader) : Except Exc (List Nat) :=
  if h.SEQN < -(2 ^ 31) || 2 ^ 31 ≤ h.SEQN then .error .structError
  else .ok (headerBytes h)

/-- Unpacking of the header from the first seven bytes of a datagram; a
shorter buffer makes struct.unpack raise.  A boolean field unpacks to true
for any nonzero byte. -/
def UDPHeader.from_bytesE (data : List Nat) : Except Exc UDPHeader :=
  match data with
  | b0 :: b1 :: b2 :: b3 :: b4 :: b5 :: b6 :: _ =>
    let u : Nat := b0 * 2 ^ 24 + b1 * 2 ^ 16 + b2 * 2 ^ 8 + b3
    let seqn : Int := if u < 2 ^ 31 then (u : Int) else (u : Int) - 2 ^ 32
    .ok ⟨seqn, b4 ≠ 0, b5 ≠ 0, b6 ≠ 0⟩
  | _ => .error .structError

/-- Message types recognised by this revision of the code (the enum
UDPMessage.MessageType). -/
inductive MessageType where
  | CHT | GRP_SUB | GRP_ADD | GRP_HST | MSG_HST | USR_LOGIN | USR_ADD
deriving DecidableEq, Repr

/-- Enum lookup MessageType(value): a string value matching a member maps
to it; any other value, hashable or not, falls through to ValueError,
which the UDPMessage initializer catches. -/
def mtypeOfStr (s : List Char) : Option MessageType :=
  if s = "CHT".toList then some .CHT
  else if s = "GRP_SUB".toList then some .GRP_SUB
  else if s = "GRP_ADD".toList then some .GRP_ADD
  else if s = "GRP_HST".toList then some .GRP_HST
  else if s = "MSG_HST".toList then some .MSG_HST
  else if s = "USR_LOGIN".toList then some .USR_LOGIN
  else if s = "USR_ADD".toList then some .USR_ADD
  else none

def jsonToMType : Json → Option MessageType
  | .str s => mtypeOfStr s
  | _ => none

/-- Substring test used by the Python membership operator on strings. -/
def hasSubstr (pat : List Char) : List Char → Bool
  | [] => pat.isPrefixOf []
  | c :: tl => pat.isPrefixOf (c :: tl) || hasSubstr pat tl

/-- Type extraction performed by the UDPMessage initializer: when the data
is truthy, evaluate the expression quotetype-in-data and, when it holds,
look the value up in the MessageType enum.  The membership operator raises
TypeError on a truthy number or boolean, and indexing with a string raises
TypeError when the data is a list or a string, so those branches raise. -/
def msgTypeE (d : Json) : Except Exc (Option MessageType) :=
  if truthy d then
    match d with
    | .obj kvs =>
      if kvs.hasKey "type".toList then
        .ok (jsonToMType ((kvs.lookup "type".toList).getD .null))
      else .ok none
    | .arr xs =>
      if xs.containsStr "type".toList then .error .typeError else .ok none
    | .str s =>
      if hasSubstr "type".toList s then .error .typeError else .ok none
    | .num _ => .error .typeError
    | .bool _ => .error .typeError
    | .null => .ok none
  else .ok none

/-- Embedded UDPMessage: header, body (Json.null models a body equal to
None) and the extracted type. -/
structure UDPMessage where
  header : UDPHeader
  data : Json
  type : Option MessageType

/-- Serialization UDPMessage.to_bytes: packed header followed by the
json.dumps rendering of the body (dumping None yields the text null). -/
def UDPMessage.to_bytesE (m : UDPMessage) : Except Exc (List Nat) := do
  let hb ← m.header.to_bytesE
  .ok (hb ++ dumps m.data)

/-- Deserialization UDPMessage.from_bytes followed by the initializer:
unpack the header, parse the payload as JSON when it is nonempty and leave
the body as None otherwise, then extract the message type. -/
def UDPMessage.from_bytesE (data : List Nat) : Except Exc UDPMessage := do
  let h ← UDPHeader.from_bytesE data
  let payload := data.drop HEADER_SIZE
  let body ← if payload.isEmpty then .ok Json.null else jsonLoads payload
  let t ← msgTypeE body
  .ok ⟨h, body, t⟩

/-! ## Client endpoint

ClientChatProtocol from src/async_udp_client.py.  The state keeps the
bytes_sent counter and the keys of the future_responses dictionary; the
futures themselves are events reported in a ClientOutcome. -/

structure ClientState where
  bytes_sent : Nat
  future_responses : List Int

/-- Observable effects of one client handler invocation: the sequence
number whose future was completed by set_result, the message handed to the
receive listener, and the datagrams written to the transport. -/
structure ClientOutcome where
  completed : Option Int
  listened : Option UDPMessage
  sent : List (List Nat)

/-- Construction and transmission of a fresh packet by send_message when a
data dictionary is given: the new packet takes SEQN equal to the running
bytes_sent counter with no flag bits, it is serialized and written to the
transport, its future is recorded under its SEQN, and the counter then
grows by the length of the serialized packet. -/
def sendFresh (st : ClientState) (d : Json) : Except Exc (UDPMessage × List Nat × ClientState) := do
  let t ← msgTypeE d
  let msg : UDPMessage := ⟨⟨(st.bytes_sent : Int), false, false, false⟩, d, t⟩
  let bytes ← msg.to_bytesE
  .ok (msg, bytes,
    { bytes_sent := st.bytes_sent + bytes.length,
      future_responses :=
        if st.future_responses.contains msg.header.SEQN then st.future_responses
        else st.future_responses ++ [msg.header.SEQN] })

/-- Iterated fresh sends, collecting the constructed packets and their wire
bytes. -/
def sendAll : ClientState → List Json → Except Exc (List (UDPMessage × List Nat) × ClientState)
  | st, [] => .ok ([], st)
  | st, d :: ds => do
    let (m, b, st1) ← sendFresh st d
    let (rest, st2) ← sendAll st1 ds
    .ok ((m, b) :: rest, st2)

/-- Client handler datagram_received.  ACK frames complete and remove the
matching outstanding future when there is one, and then unconditionally
read the status field of the body: when the body is not a dictionary (in
particular when it is None because the payload was empty) the attribute
access data-dot-get raises AttributeError.  In Python the future completion
and deletion performed before that line persist; the embedding reports the
raised exception.  Frames that are not ACKs are handed to the receive
listener and nothing is transmitted back. -/
def clientDatagramReceived (st : ClientState) (data : List Nat) :
    Except Exc (ClientState × ClientOutcome) := do
  let msg ← UDPMessage.from_bytesE data
  if msg.header.ACK then
    let hit := st.future_responses.contains msg.header.SEQN
    let st1 : ClientState :=
      if hit then
        { st with future_responses := st.future_responses.filter (fun s => s ≠ msg.header.SEQN) }
      else st
    match msg.data with
    | .obj _ => .ok (st1, ⟨if hit then some msg.header.SEQN else none, none, []⟩)
    | _ => .error .attributeError
  else
    .ok (st, ⟨none, some msg, []⟩)

/-! ## Retransmission loop

The coroutine verify_message of ClientChatProtocol.  Delays are exact
dyadic rationals (0.5, 1, 2, ...), so rational arithmetic models the float
arithmetic of the source without error.  Each loop iteration sleeps for
the pending delay capped at the remaining budget, retransmits the stored
bytes, and doubles the delay; when the accumulated delay reaches
MAX_TIMEOUT the loop exits, the future is failed with
RequestTimedOutException exactly once and the connection-lost future is
completed.  The fuel argument bounds the number of iterations the model
unrolls; the result is the list of sleeps performed and the number of
set_exception calls, or none when the fuel runs out first. -/

def MAX_TIMEOUT : ℚ := 5

/-- One sleep of the loop: the pending delay capped at the remaining
budget, the Python expression min of delay and MAX_TIMEOUT minus total. -/
def vmStep (delay total : ℚ) : ℚ :=
  if delay ≤ MAX_TIMEOUT - total then delay else MAX_TIMEOUT - total

def verifyMessage : ℚ → ℚ → Nat → Option (List ℚ × Nat)
  | _, _, 0 => none
  | delay, total, fuel + 1 =>
    if total < MAX_TIMEOUT then
      match verifyMessage (delay * 2) (total + vmStep delay total) fuel with
      | some (ds, k) => some (vmStep delay total :: ds, k)
      | none => none
    else some ([], 1)

/-! ## UTF-8 encoding of a Python string -/

def utf8Char (c : Char) : List Nat :=
  let n := c.toNat
  if n < 128 then [n]
  else if n < 2048 then [192 + n / 64, 128 + n % 64]
  else if n < 65536 then [224 + n / 4096, 128 + n / 64 % 64, 128 + n % 64]
  else [240 + n / 262144, 128 + n / 4096 % 64, 128 + n / 64 % 64, 128 + n % 64]

def utf8Encode : List Char → List Nat
  | [] => []
  | c :: tl => utf8Char c ++ utf8Encode tl

/-! ## Base64

The base64.encodebytes and base64.b64decode calls of
DatabaseController.hash_new_password and is_correct_password.
Encoding splits the input into chunks of at most 45 bytes, each rendered
as standard base64 followed by one newline; decoding with the default
arguments discards every byte outside the alphabet (keeping the padding
sign) before decoding. -/

def b64EncChar (n : Nat) : Nat :=
  if n < 26 then 65 + n
  else if n < 52 then 97 + (n - 26)
  else if n < 62 then 48 + (n - 52)
  else if n = 62 then 43 else 47

def b64DecChar (c : Nat) : Option Nat :=
  if 65 ≤ c && c ≤ 90 then some (c - 65)
  else if 97 ≤ c && c ≤ 122 then some (c - 71)
  else if 48 ≤ c && c ≤ 57 then some (c + 4)
  else if c = 43 then some 62
  else if c = 47 then some 63
  else none

/-- Standard base64 rendering of a byte string, with padding. -/
def b64encode : List Nat → List Nat
  | [] => []
  | [a] => [b64EncChar (a / 4), b64EncChar (a % 4 * 16), 61, 61]
  | [a, b] => [b64EncChar (a / 4), b64EncChar (a % 4 * 16 + b / 16),
               b64EncChar (b % 16 * 4), 61]
  | a :: b :: c :: rest =>
    b64EncChar (a / 4) :: b64EncChar (a % 4 * 16 + b / 16) ::
    b64EncChar (b % 16 * 4 + c / 64) :: b64EncChar (c % 64) :: b64encode rest

/-- Chunked rendering of base64.encodebytes: one line of up to 45 input
bytes at a time, each line terminated by a newline. -/
def encodebytesGo : Nat → List Nat → List Nat
  | 0, _ => []
  | _ + 1, [] => []
  | f + 1, s => b64encode (s.take 45) ++ 10 :: encodebytesGo f (s.drop 45)

def encodebytes (s : List Nat) : List Nat :=
  encodebytesGo (s.length + 1) s

/-- Decoding of a cleaned base64 string four characters at a time.  A
padding sign in the third or fourth position ends the data (the binascii
decoder ignores what follows the padding). -/
def b64Quads : Nat → List Nat → Except Exc (List Nat)
  | _, [] => .ok []
  | 0, _ => .error .valueError
  | f + 1, a :: b :: c :: d :: rest => do
    let va ← match b64DecChar a with | some v => .ok v | none => .error .valueError
    let vb ← match b64DecChar b with | some v => .ok v | none => .error .valueError
    if c = 61 then .ok [va * 4 + vb / 16]
    else do
      let vc ← match b64DecChar c with | some v => .ok v | none => .error .valueError
      if d = 61 then .ok [va * 4 + vb / 16, vb % 16 * 16 + vc / 4]
      else do
        let vd ← match b64DecChar d with | some v => .ok v | none => .error .valueError
        let tl ← b64Quads f rest
        .ok ((va * 4 + vb / 16) :: (vb % 16 * 16 + vc / 4) :: (vc % 4 * 64 + vd) :: tl)
  | _, _ => .error .valueError

/-- Model of base64.b64decode with validation off: discard bytes outside
the alphabet and the padding sign, then decode; a trailing group of fewer
than four characters is an error. -/
def b64decode (s : List Nat) : Except Exc (List Nat) :=
  let t := s.filter (fun c => (b64DecChar c).isSome || c = 61)
  b64Quads (t.length + 1) t

/-! ## SHA-256, HMAC and PBKDF2

Executable models of hashlib.sha256, hmac and hashlib.pbkdf2_hmac as used
by the password helpers.  Words are naturals reduced modulo 2 to the 32. -/

def M32 : Nat := 2 ^ 32

def rotr (n w : Nat) : Nat := (w / 2 ^ n + w % 2 ^ n * 2 ^ (32 - n)) % M32

def shr (n w : Nat) : Nat := w / 2 ^ n

def bsig0 (x : Nat) : Nat := ((rotr 2 x ^^^ rotr 13 x) ^^^ rotr 22 x) % M32

def bsig1 (x : Nat) : Nat := ((rotr 6 x ^^^ rotr 11 x) ^^^ rotr 25 x) % M32

def ssig0 (x : Nat) : Nat := ((rotr 7 x ^^^ rotr 18 x) ^^^ shr 3 x) % M32

def ssig1 (x : Nat) : Nat := ((rotr 17 x ^^^ rotr 19 x) ^^^ shr 10 x) % M32

def chF (x y z : Nat) : Nat := ((x &&& y) ^^^ ((x ^^^ (M32 - 1)) &&& z)) % M32

def majF (x y z : Nat) : Nat := (((x &&& y) ^^^ (x &&& z)) ^^^ (y &&& z)) % M32

def shaK : List Nat :=
  [1116352408, 1899447441, 3049323471, 3921009573,
   961987163, 1508970993, 2453635748, 2870763221,
   3624381080, 310598401, 607225278, 1426881987,
   1925078388, 2162078206, 2614888103, 3248222580,
   3835390401, 4022224774, 264347078, 604807628,
   770255983, 1249150122, 1555081692, 1996064986,
   2554220882, 2821834349, 2952996808, 3210313671,
   3336571891, 3584528711, 113926993, 338241895,
   666307205, 773529912, 1294757372, 1396182291,
   1695183700, 1986661051, 2177026350, 2456956037,
   2730485921, 2820302411, 3259730800, 3345764771,
   3516065817, 3600352804, 4094571909, 275423344,
   430227734, 506948616, 659060556, 883997877,
   958139571, 1322822218, 1537002063, 1747873779,
   1955562222, 2024104815, 2227730452, 2361852424,
   2428436474, 2756734187, 3204031479, 3329325298]

structure Hv where
  a : Nat
  b : Nat
  c : Nat
  d : Nat
  e : Nat
  f : Nat
  g : Nat
  h : Nat

def shaH0 : Hv :=
  ⟨1779033703, 3144134277, 1013904242, 2773480762,
   1359893119, 2600822924, 528734635, 1541459225⟩

def bytesToWords : List Nat → List Nat
  | a :: b :: c :: d :: rest =>
    (a * 2 ^ 24 + b * 2 ^ 16 + c * 2 ^ 8 + d) % M32 :: bytesToWords rest
  | _ => []

def extendW : Nat → List Nat → List Nat
  | 0, ws => ws
  | f + 1, ws =>
    let n := ws.length
    let w := (ssig1 (ws.getD (n - 2) 0) + ws.getD (n - 7) 0
              + ssig0 (ws.getD (n - 15) 0) + ws.getD (n - 16) 0) % M32
    extendW f (ws ++ [w])

def shaRound (s : Hv) (kw : Nat × Nat) : Hv :=
  let t1 := (s.h + bsig1 s.e + chF s.e s.f s.g + kw.1 + kw.2) % M32
  let t2 := (bsig0 s.a + majF s.a s.b s.c) % M32
  ⟨(t1 + t2) % M32, s.a, s.b, s.c, (s.d + t1) % M32, s.e, s.f, s.g⟩

def compressChunk (hv : Hv) (chunk : List Nat) : Hv :=
  let ws := extendW 48 (bytesToWords chunk)
  let s := (shaK.zip ws).foldl shaRound hv
  ⟨(hv.a + s.a) % M32, (hv.b + s.b) % M32, (hv.c + s.c) % M32, (hv.d + s.d) % M32,
   (hv.e + s.e) % M32, (hv.f + s.f) % M32, (hv.g + s.g) % M32, (hv.h + s.h) % M32⟩

def chunks64 : Nat → List Nat → List (List Nat)
  | 0, _ => []
  | _ + 1, [] => []
  | f + 1, cs => cs.take 64 :: chunks64 f (cs.drop 64)

def shaPad (msg : List Nat) : List Nat :=
  let L := msg.length
  let zeros := (119 - L % 64) % 64
  let bl := 8 * L % 2 ^ 64
  msg ++ 128 :: List.replicate zeros 0 ++
    [bl / 2 ^ 56 % 256, bl / 2 ^ 48 % 256, bl / 2 ^ 40 % 256, bl / 2 ^ 32 % 256,
     bl / 2 ^ 24 % 256, bl / 2 ^ 16 % 256, bl / 2 ^ 8 % 256, bl % 256]

def wordBytes (w : Nat) : List Nat :=
  [w / 2 ^ 24 % 256, w / 2 ^ 16 % 256, w / 2 ^ 8 % 256, w % 256]

def sha256 (msg : List Nat) : List Nat :=
  let padded := shaPad msg
  let hv := (chunks64 (padded.length + 1) padded).foldl compressChunk shaH0
  wordBytes hv.a ++ wordBytes hv.b ++ wordBytes hv.c ++ wordBytes hv.d ++
  wordBytes hv.e ++ wordBytes hv.f ++ wordBytes hv.g ++ wordBytes hv.h

def bxor8 (a b : Nat) : Nat := (a ^^^ b) % 256

/-- HMAC-SHA256 with the standard block size of 64 bytes. -/
def hmacSha256 (key msg : List Nat) : List Nat :=
  let k0 := if 64 < key.length then sha256 key else key
  let kp := k0 ++ List.replicate (64 - k0.length) 0
  sha256 (kp.map (bxor8 92) ++ sha256 (kp.map (bxor8 54) ++ msg))

/-- Iteration of PBKDF2: u is the last HMAC output, acc the running xor. -/
def pbkdf2Go (password : List Nat) : Nat → List Nat → List Nat → List Nat
  | 0, _, acc => acc
  | f + 1, u, acc =>
    let u2 := hmacSha256 password u
    pbkdf2Go password f u2 (List.zipWith bxor8 acc u2)

/-- Model of hashlib.pbkdf2_hmac with sha256 and the default output length
of one digest (32 bytes), hence a single block with index one. -/
def pbkdf2HmacSha256 (password salt : List Nat) (iters : Nat) : List Nat :=
  let u1 := hmacSha256 password (salt ++ [0, 0, 0, 1])
  pbkdf2Go password (iters - 1) u1 u1

/-! ## Password helpers from src/db_sqlite.py -/

def bytesToChars (bs : List Nat) : List Char :=
  bs.map Char.ofNat

/-- DatabaseController.hash_new_password: pbkdf2 of the encoded password
under the given 16 random bytes of salt, both salt and digest rendered
with base64.encodebytes and decoded back to text.  The random salt is an
explicit argument of the embedding. -/
def hash_new_password (password salt : List Nat) : List Char × List Char :=
  (bytesToChars (encodebytes salt),
   bytesToChars (encodebytes (pbkdf2HmacSha256 password salt 100000)))

/-- DatabaseController.is_correct_password: base64-decode the stored salt
and hash, recompute the digest under the candidate password and compare
with hmac.compare_digest, whose value is plain equality of the byte
strings.  The attribute access password.encode raises when the candidate
is not a string. -/
def is_correct_password (salt pw_hash : List Char) (password : Json) : Except Exc Bool := do
  let saltBytes ← b64decode (salt.map Char.toNat)
  let hashBytes ← b64decode (pw_hash.map Char.toNat)
  match password with
  | .str p => .ok (hashBytes == pbkdf2HmacSha256 (utf8Encode p) saltBytes 100000)
  | _ => .error .attributeError

/-! ## Storage layer

DatabaseController from src/db_sqlite.py, modelled as a functional state
machine over row lists.  Columns that receive values taken from message
bodies keep them as Json, mirroring the dynamic typing of sqlite bindings.
Stateful operations return the database next to an Except value; a raised
exception leaves the rows already committed in place, because
execute_query commits after every single statement. -/

abbrev Address := List Char × Nat

/-- Value handed to a sqlite parameter binding: either a Python value that
came from a JSON body (or a literal string), or a socket address tuple.
The dispatcher of this revision passes a raw address tuple as the creator
name of GRP_ADD, and binding a tuple raises sqlite3.InterfaceError. -/
inductive PyVal where
  | jval (j : Json)
  | addr (a : Address)

/-- Python string as a bound value. -/
def PyVal.ofStr (s : List Char) : PyVal := .jval (.str s)

/-- A value is bindable when sqlite accepts it as a parameter: scalars are
accepted, lists, dicts and tuples are not. -/
def PyVal.bindable : PyVal → Bool
  | .jval (.arr _) => false
  | .jval (.obj _) => false
  | .jval _ => true
  | .addr _ => false

/-- Sqlite equality between a stored value and a bound scalar: NULL never
compares equal, booleans are stored as the integers zero and one, and
values of different storage classes are unequal. -/
def sqlEqJ : Json → Json → Bool
  | .null, _ => false
  | _, .null => false
  | .str a, .str b => a == b
  | .num a, .num b => a == b
  | .bool a, .num b => (if a then (1 : Int) else 0) == b
  | .num a, .bool b => a == (if b then (1 : Int) else 0)
  | .bool a, .bool b => a == b
  | _, _ => false

def isNullJ : Json → Bool
  | .null => true
  | _ => false

def matchesVal (stored : Json) : PyVal → Bool
  | .jval q => sqlEqJ stored q
  | .addr _ => false

structure UserRow where
  id : Nat
  address : Json
  username : Json
  password : Json

structure RoomRow where
  id : Nat
  name : Json
  password : Json
  dateCreated : List Char

structure MsgRow where
  id : Nat
  roomId : Nat
  userId : Nat
  text : Json
  dateSent : List Char

structure DB where
  users : List UserRow
  rooms : List RoomRow
  members : List (Nat × Nat)
  messages : List MsgRow

/-- Next rowid for an INTEGER PRIMARY KEY column: one past the maximum. -/
def nextId (ids : List Nat) : Nat :=
  ids.foldl max 0 + 1

/-- Scalar check for an inserted value: lists, dicts and tuples raise
InterfaceError at binding time. -/
def insertable : Json → Bool
  | .arr _ => false
  | .obj _ => false
  | _ => true

/-- DatabaseController.get_user_id_by_name: a SELECT on the user name; an
unbindable parameter raises at the binding, an empty result raises
ItemNotFoundException. -/
def get_user_id_by_name (db : DB) (p : PyVal) : Except Exc Nat :=
  if !p.bindable then .error .interfaceError
  else match db.users.find? (fun u => matchesVal u.username p) with
    | some u => .ok u.id
    | none => .error .itemNotFound

/-- DatabaseController.get_room_id_by_name. -/
def get_room_id_by_name (db : DB) (p : PyVal) : Except Exc Nat :=
  if !p.bindable then .error .interfaceError
  else match db.rooms.find? (fun r => matchesVal r.name p) with
    | some r => .ok r.id
    | none => .error .itemNotFound

/-- DatabaseController.new_message: resolve the room and the user, then
insert a Message row whose Text column is NOT NULL. -/
def new_message (db : DB) (group user : PyVal) (text : Json) (timeSent : List Char) :
    DB × Except Exc Nat :=
  match get_room_id_by_name db group with
  | .error e => (db, .error e)
  | .ok roomId =>
    match get_user_id_by_name db user with
    | .error e => (db, .error e)
    | .ok userId =>
      if !insertable text then (db, .error .interfaceError)
      else if isNullJ text then (db, .error .integrityError)
      else
        let mid := nextId (db.messages.map MsgRow.id)
        ({ db with messages := db.messages ++ [⟨mid, roomId, userId, text, timeSent⟩] },
         .ok mid)

/-- DatabaseController.new_member: resolve both names, then insert into
Member, whose UNIQUE constraint on the pair raises IntegrityError on a
duplicate. -/
def new_member (db : DB) (user group : PyVal) : DB × Except Exc Nat :=
  match get_user_id_by_name db user with
  | .error e => (db, .error e)
  | .ok userId =>
    match get_room_id_by_name db group with
    | .error e => (db, .error e)
    | .ok roomId =>
      if db.members.contains (userId, roomId) then (db, .error .integrityError)
      else ({ db with members := db.members ++ [(userId, roomId)] }, .ok roomId)

/-- DatabaseController.new_group: insert the Room row first (committed at
once), then insert a Member row for the creator when one was passed.  The
UNIQUE constraint on the room name raises IntegrityError, not the
ItemAlreadyExistsException the caller tries to catch. -/
def new_group (db : DB) (name : PyVal) (creator : Option PyVal) (now : List Char) :
    DB × Except Exc Nat :=
  if !name.bindable then (db, .error .interfaceError)
  else match name with
  | .jval nv =>
    if isNullJ nv then (db, .error .integrityError)
    else if db.rooms.any (fun r => sqlEqJ r.name nv) then (db, .error .integrityError)
    else
      let rid := nextId (db.rooms.map RoomRow.id)
      let db1 := { db with rooms := db.rooms ++ [⟨rid, nv, .null, now⟩] }
      match creator with
      | none => (db1, .ok rid)
      | some c =>
        match new_member db1 c name with
        | (db2, .error e) => (db2, .error e)
        | (db2, .ok _) => (db2, .ok rid)
  | .addr _ => (db, .error .interfaceError)

/-- Rendering of an address tuple as the stored host:port text. -/
def addrToChars (a : Address) : List Char :=
  a.1 ++ ':' :: (serNat a.2).map Char.ofNat

/-- DatabaseController.new_user: a SELECT decides whether the name is
taken; if not, the password is hashed (raising on a non-string) and the
row inserted.  Returns true exactly when a row was created. -/
def new_user (db : DB) (username password : Json) (straddr : List Char) (salt : List Nat) :
    DB × Except Exc Bool :=
  if !(PyVal.jval username).bindable then (db, .error .interfaceError)
  else if db.users.any (fun u => sqlEqJ u.username username) then (db, .ok false)
  else match password with
  | .str p =>
    let (saltTxt, hashTxt) := hash_new_password (utf8Encode p) salt
    let stored := Json.str (saltTxt ++ '$' :: hashTxt)
    if isNullJ username then (db, .error .integrityError)
    else
      let uid := nextId (db.users.map UserRow.id)
      ({ db with users := db.users ++ [⟨uid, .str straddr, username, stored⟩] }, .ok true)
  | _ => (db, .error .attributeError)

/-- Splitting of the stored password text on the dollar sign; the unpacking
into exactly two names raises ValueError unless there is exactly one. -/
def splitDollar (s : List Char) : Except Exc (List Char × List Char) :=
  let pre := s.takeWhile (fun c => c ≠ '$')
  let post := s.dropWhile (fun c => c ≠ '$')
  match post with
  | '$' :: rest => if rest.contains '$' then .error .valueError else .ok (pre, rest)
  | _ => .error .valueError

/-- DatabaseController.update_user_address. -/
def update_user_address (db : DB) (username : Json) (addr : Address) : DB :=
  { db with users := db.users.map (fun u =>
      if sqlEqJ u.username username then { u with address := .str (addrToChars addr) } else u) }

/-- DatabaseController.verify_user_credentials followed by user_login: look
the user up (ItemNotFoundException when absent), split the stored text into
salt and hash, check the candidate password, and update the stored address
when the password is correct. -/
def user_login (db : DB) (username password : Json) (addr : Address) :
    DB × Except Exc Bool :=
  if !(PyVal.jval username).bindable then (db, .error .interfaceError)
  else match db.users.find? (fun u => sqlEqJ u.username username) with
  | none => (db, .error .itemNotFound)
  | some row =>
    match row.password with
    | .str stored =>
      (match splitDollar stored with
       | .error e => (db, .error e)
       | .ok (saltTxt, hashTxt) =>
         match is_correct_password saltTxt hashTxt password with
         | .error e => (db, .error e)
         | .ok correct =>
           if correct then (update_user_address db username addr, .ok correct)
           else (db, .ok correct))
    | _ => (db, .error .attributeError)

/-- DatabaseController.message_history: rows joined with the user table, as
dictionaries.  The sqlite datetime function applied to the stored text is
modelled as the text itself. -/
def message_history (db : DB) (group : PyVal) : Except Exc Json := do
  let roomId ← get_room_id_by_name db group
  let rows := db.messages.filter (fun m => m.roomId = roomId)
  let mk : MsgRow → Json := fun m =>
    .obj (.cons "Username".toList
            (((db.users.find? (fun u => u.id = m.userId)).map UserRow.username).getD .null)
          (.cons "Text".toList m.text
           (.cons "Date_Sent".toList (.str m.dateSent) .nil)))
  .ok (.arr (rows.foldr (fun m acc => .cons (mk m) acc) .nil))

/-- DatabaseController.group_history: the rooms the user belongs to. -/
def group_history (db : DB) (user : PyVal) : Except Exc Json := do
  let userId ← get_user_id_by_name db user
  let roomIds := (db.members.filter (fun m => m.1 = userId)).map Prod.snd
  let rows := db.rooms.filter (fun r => roomIds.contains r.id)
  let mk : RoomRow → Json := fun r =>
    .obj (.cons "Name".toList r.name
          (.cons "Date_Created".toList (.str r.dateCreated) .nil))
  .ok (.arr (rows.foldr (fun r acc => .cons (mk r) acc) .nil))

/-- Parsing of a stored host:port text the way urlsplit treats a network
location: the part after the last colon is the port, which must be all
digits and at most 65535 or the port accessor raises ValueError; a missing
or empty host or port yields no address and the entry is skipped. -/
def parseHostPort (s : List Char) : Except Exc (Option Address) :=
  if s.contains ':' then
    let host := (s.reverse.dropWhile (fun c => c ≠ ':')).reverse.dropLast
    let portTxt := (s.reverse.takeWhile (fun c => c ≠ ':')).reverse
    if portTxt.isEmpty then .ok none
    else if portTxt.all (fun c => c.isDigit) then
      let p := digitsVal (portTxt.map Char.toNat)
      if p ≤ 65535 then
        if host.isEmpty then .ok none else .ok (some (host.map Char.toLower, p))
      else .error .valueError
    else .error .valueError
  else .ok none

/-- Left-to-right collection of parsed addresses, skipping the entries the
parser reports as absent and propagating the first raised error. -/
def collectAddrs : List (List Char) → Except Exc (List Address)
  | [] => .ok []
  | s :: tl => do
    let a ← parseHostPort s
    let rest ← collectAddrs tl
    match a with
    | some ad => .ok (ad :: rest)
    | none => .ok rest

/-- DatabaseController.get_addresses_for_group: the stored address of every
member of the group, parsed into tuples, skipping entries without a usable
host and port. -/
def get_addresses_for_group (db : DB) (group : PyVal) : Except Exc (List Address) :=
  if !group.bindable then .error .interfaceError
  else
    let gv : Json := match group with | .jval j => j | .addr _ => .null
    let roomIds := (db.rooms.filter (fun r => sqlEqJ r.name gv)).map RoomRow.id
    let userIds := (db.members.filter (fun m => roomIds.contains m.2)).map Prod.fst
    let rows := db.users.filter (fun u => userIds.contains u.id)
    collectAddrs (rows.map (fun u => match u.address with | .str s => s | _ => []))

/-! ## Server

ServerChatProtocol and SqliteGroupLayer from src/async_udp_server.py.  The
wall clock reading of datetime.now and the random salt of os.urandom are
explicit arguments.  A handler that raises produces an error value and no
datagram is transmitted; otherwise the returned list holds every datagram
written to the transport in order, the acknowledgement last. -/

/-- Reading of a field with dict.get and a default. -/
def getField (d : Json) (k : List Char) (dflt : Json) : Json :=
  match d with
  | .obj kvs => (kvs.lookup k).getD dflt
  | _ => dflt

/-- Key membership test on a body known to be a dictionary. -/
def hasKeyJ (d : Json) (k : List Char) : Bool :=
  match d with
  | .obj kvs => kvs.hasKey k
  | _ => false

/-- Simplified model of datetime.fromisoformat: the value must be a string
(else the call raises TypeError) beginning with a four digit year, a dash,
a two digit month, a dash and a two digit day, as every timestamp this
application produces does; anything else raises ValueError.  The parsed
timestamp is kept as its text. -/
def isoParseJ : Json → Except Exc (List Char)
  | .str s =>
    match s with
    | y1 :: y2 :: y3 :: y4 :: '-' :: m1 :: m2 :: '-' :: d1 :: d2 :: _ =>
      if [y1, y2, y3, y4, m1, m2, d1, d2].all Char.isDigit then .ok s
      else .error .valueError
    | _ => .error .valueError
  | _ => .error .typeError

/-- Short description of a raised exception, standing in for the Python
string interpolation of the exception value. -/
def excMsg : Exc → List Char
  | .itemNotFound => "ItemNotFoundException".toList
  | .itemExists => "ItemAlreadyExistsException".toList
  | .integrityError => "IntegrityError".toList
  | .interfaceError => "InterfaceError".toList
  | .typeError => "TypeError".toList
  | .attributeError => "AttributeError".toList
  | .valueError => "ValueError".toList
  | .structError => "struct.error".toList

/-- SqliteGroupLayer.group_send: serialize the message once per member
address and write it to the transport unchanged; the sequence number is
not rewritten. -/
def group_send (db : DB) (group : PyVal) (msg : UDPMessage) :
    Except Exc (List (List Nat × Address)) := do
  let addrs ← get_addresses_for_group db group
  let bytes ← msg.to_bytesE
  .ok (addrs.map fun a => (bytes, a))

/-- Result of a dispatched request: the datagrams sent while handling it,
the status code, the response payload and the error text. -/
abbrev DispatchResult := List (List Nat × Address) × Nat × Json × Json

/-- ServerChatProtocol.message_received: dispatch on the message type.
The group, username and password fields default to the strings default,
root and default.  Note that the GRP_ADD branch hands the socket address
tuple, not the username field, to group_add, so the Member insert for the
creator raises InterfaceError at the sqlite binding and the branch answers
with status 500. -/
def message_received (db : DB) (msg : UDPMessage) (mt : MessageType) (addr : Address)
    (now : List Char) (salt : List Nat) : DB × Except Exc DispatchResult :=
  let d := msg.data
  let group := getField d "group".toList (.str "default".toList)
  let user := getField d "username".toList (.str "root".toList)
  let password := getField d "password".toList (.str "default".toList)
  match mt with
  | .CHT =>
    let text := getField d "text".toList .null
    let timeE : Except Exc (List Char) :=
      if hasKeyJ d "time_sent".toList then isoParseJ (getField d "time_sent".toList .null)
      else .ok now
    (match timeE with
     | .error e => (db, .error e)
     | .ok t =>
       match new_message db (.jval group) (.jval user) text t with
       | (db1, .error e) =>
         (db1, .ok ([], 500, .null, .str ("Unable to save message: ".toList ++ excMsg e)))
       | (db1, .ok _) =>
         match group_send db1 (.jval group) msg with
         | .error e => (db1, .error e)
         | .ok sends => (db1, .ok (sends, 200, .null, .null)))
  | .GRP_ADD =>
    (match new_group db (.jval group) (some (.addr addr)) now with
     | (db1, .error .itemExists) =>
       (db1, .ok ([], 400, .null, .str "Group with this name already exists".toList))
     | (db1, .error e) =>
       (db1, .ok ([], 500, .null, .str ("Unable to create group: ".toList ++ excMsg e)))
     | (db1, .ok _) =>
       (db1, .ok ([], 200, .obj (.cons "group".toList group .nil), .null)))
  | .GRP_HST =>
    (match group_history db (.jval user) with
     | .error e => (db, .error e)
     | .ok l => (db, .ok ([], 200, l, .null)))
  | .GRP_SUB =>
    (match new_member db (.jval user) (.jval group) with
     | (db1, .error .itemNotFound) =>
       (db1, .ok ([], 400, .null, .str "Group with this name already exists".toList))
     | (db1, .error e) => (db1, .error e)
     | (db1, .ok _) => (db1, .ok ([], 200, .null, .null)))
  | .MSG_HST =>
    (match message_history db (.jval group) with
     | .error e => (db, .error e)
     | .ok l => (db, .ok ([], 200, l, .null)))
  | .USR_LOGIN =>
    (match user_login db user password addr with
     | (db1, .error .itemNotFound) =>
       (db1, .ok ([], 400, .null, .str "Account doesn't exist.".toList))
     | (db1, .error e) => (db1, .error e)
     | (db1, .ok b) =>
       (db1, .ok ([], 200,
         .obj (.cons "credentials_valid".toList (.bool b)
               (.cons "username".toList user .nil)), .null)))
  | .USR_ADD =>
    let straddr := addrToChars addr
    (match new_user db user password straddr salt with
     | (db1, .error e) => (db1, .error e)
     | (db1, .ok created) =>
       let resp : Json := .obj (.cons "created_user".toList (.bool created) .nil)
       if created then
         match new_member db1 (.jval user) (.ofStr "default".toList) with
         | (db2, .error e) => (db2, .error e)
         | (db2, .ok _) => (db2, .ok ([], 200, resp, .null))
       else (db1, .ok ([], 200, resp, .null)))

/-- ServerChatProtocol.datagram_received: decode the frame (raising on a
malformed one), build an acknowledgement with the same sequence number,
the ACK bit and an empty body; when the body is truthy and has a
recognised type, dispatch and store status, error and response into the
acknowledgement body, in that order; finally transmit the acknowledgement
to the origin address. -/
def serverDatagramReceived (db : DB) (data : List Nat) (addr : Address)
    (now : List Char) (salt : List Nat) :
    Except Exc (DB × List (List Nat × Address)) := do
  let msg ← UDPMessage.from_bytesE data
  match truthy msg.data, msg.type with
  | true, some mt =>
    (match message_received db msg mt addr now salt with
     | (_, .error e) => .error e
     | (db1, .ok (sends, st, resp, err)) => do
       let ackBody : Json :=
         .obj (.cons "status".toList (.num (st : Int))
               (.cons "error".toList err
                (.cons "response".toList resp .nil)))
       let ackBytes ← UDPMessage.to_bytesE ⟨⟨msg.header.SEQN, true, false, false⟩, ackBody, none⟩
       .ok (db1, sends ++ [(ackBytes, addr)]))
  | _, _ => do
    let ackBytes ← UDPMessage.to_bytesE ⟨⟨msg.header.SEQN, true, false, false⟩, .obj .nil, none⟩
    .ok (db, [(ackBytes, addr)])

/-! ## Concrete example data used by witnesses and counterexamples -/

/-- Little-endian value of a digit list, used by the decimal lemmas. -/
def ofR : List Nat → Nat
  | [] => 0
  | d :: t => d + 10 * ofR t

def jstr (s : String) : Json := .str s.toList

def exAddr : Address := ("client".toList, 9999)

def addrH1 : Address := ("h".toList, 1)

def addrH2 : Address := ("h".toList, 2)

def exNow : List Char := "2024-01-01T00:00:00".toList

/-- Example database: root with no address, alice and bob subscribed to
group g with usable addresses. -/
def exDb : DB where
  users := [⟨1, .str [], jstr "root", jstr "x$y"⟩,
            ⟨2, jstr "h:1", jstr "alice", jstr "x$y"⟩,
            ⟨3, jstr "h:2", jstr "bob", jstr "x$y"⟩]
  rooms := [⟨1, jstr "default", .null, "2024".toList⟩,
            ⟨2, jstr "g", .null, "2024".toList⟩]
  members := [(2, 2), (3, 2)]
  messages := []

def chtFanBody : Json :=
  .obj (.cons "type".toList (jstr "CHT")
        (.cons "text".toList (jstr "hi")
         (.cons "group".toList (jstr "g")
          (.cons "username".toList (jstr "root") .nil))))

def chtFanBytes : List Nat := [0, 0, 0, 7, 0, 0, 0] ++ dumps chtFanBody

def chtAckBody : Json :=
  .obj (.cons "status".toList (.num 200)
        (.cons "error".toList .null
         (.cons "response".toList .null .nil)))

def chtAckBytes : List Nat := [0, 0, 0, 7, 1, 0, 0] ++ dumps chtAckBody

def exDbAfterCht : DB := { exDb with messages := [⟨1, 2, 1, jstr "hi", exNow⟩] }

def grpAddBody : Json :=
  .obj (.cons "type".toList (jstr "GRP_ADD")
        (.cons "group".toList (jstr "eng")
         (.cons "username".toList (jstr "alice") .nil)))

def grpAddBytes : List Nat := [0, 0, 0, 9, 0, 0, 0] ++ dumps grpAddBody

def grpAddAckBody : Json :=
  .obj (.cons "status".toList (.num 500)
        (.cons "error".toList (jstr "Unable to create group: InterfaceError")
         (.cons "response".toList .null .nil)))

def grpAddAckBytes : List Nat := [0, 0, 0, 9, 1, 0, 0] ++ dumps grpAddAckBody

def exDbAfterGrpAdd : DB := { exDb with rooms := exDb.rooms ++ [⟨3, jstr "eng", .null, exNow⟩] }

/-- The connect frame of the client: SEQN zero, SYN set, empty data, whose
payload serializes to the text null. -/
def synBytes : List Nat := [0, 0, 0, 0, 0, 1, 0] ++ [110, 117, 108, 108]

/-- A well-formed frame whose body is the list holding the string type:
the membership test succeeds and the list indexing in the UDPMessage
initializer raises TypeError. -/
def typeListBytes : List Nat := [0, 0, 0, 5, 0, 0, 0] ++ dumps (.arr (.cons (jstr "type") .nil))

def exClientSt : ClientState := ⟨0, []⟩

def exClientStP : ClientState := ⟨21, [3, 11]⟩

def chtInBody : Json :=
  .obj (.cons "type".toList (jstr "CHT")
        (.cons "text".toList (jstr "yo")
         (.cons "group".toList (jstr "default")
          (.cons "username".toList (jstr "bob")
           (.cons "msg_seqn".toList (.num 7) .nil)))))

def chtInMsg : UDPMessage := ⟨⟨42, false, false, false⟩, chtInBody, some .CHT⟩

def chtInBytes : List Nat := [0, 0, 0, 42, 0, 0, 0] ++ dumps chtInBody

/-- An ACK frame with an empty payload: its decoded body is None. -/
def ackEmptyBytes : List Nat := [0, 0, 0, 7, 1, 0, 0]

/-- An ACK frame with a dictionary body. -/
def ackObjBytes : List Nat :=
  [0, 0, 0, 7, 1, 0, 0] ++ dumps (.obj (.cons "status".toList (.num 200) .nil))

/-- Payloads of the two fresh sends of the send-counter witness. -/
def exPayloads : List Json :=
  [.obj .nil, .obj (.cons "type".toList (jstr "CHT") .nil)]

/-- The two packets those sends construct: sequence numbers zero and nine,
the second equal to the wire length of the first. -/
def exSendOut : List (UDPMessage × List Nat) :=
  [(⟨⟨0, false, false, false⟩, .obj .nil, none⟩, [0, 0, 0, 0, 0, 0, 0, 123, 125]),
   (⟨⟨9, false, false, false⟩, .obj (.cons "type".toList (jstr "CHT") .nil), some .CHT⟩,
    [0, 0, 0, 9, 0, 0, 0, 123, 34, 116, 121, 112, 101, 34, 58, 32, 34, 67, 72, 84, 34, 125])]

def exSendFin : ClientState := ⟨31, [0, 9]⟩

/-- The decoded form of the CHT fan-out frame. -/
def chtFanMsg : UDPMessage := ⟨⟨7, false, false, false⟩, chtFanBody, some .CHT⟩

/-! # Theorems

General lemmas about the embedded definitions first, then one theorem per
claim of the specification, each with its witness or counterexample. -/

theorem dRev_succ_ne_nil {f n : Nat} : dRev (f + 1) n ≠ [] := by
  rw [dRev]; split <;> simp

theorem serNat_ne_nil (n : Nat) : serNat n ≠ [] := by
  unfold serNat
  simp [dRev_succ_ne_nil]

theorem dumps_ne_nil (j : Json) : dumps j ≠ [] := by
  cases j with
  | null => simp [dumps]
  | bool b => cases b <;> simp [dumps]
  | num n =>
    simp only [dumps, serInt]
    split
    · simp
    · exact serNat_ne_nil _
  | str s => simp [dumps, serStr]
  | arr xs => cases xs <;> simp [dumps]
  | obj xs => cases xs <;> simp [dumps, serStr]

theorem headerBytes_length (h : UDPHeader) : (headerBytes h).length = 7 := rfl

theorem hdr_to_bytesE_ok {h : UDPHeader} {b : List Nat} (hb : h.to_bytesE = .ok b) :
    b = headerBytes h := by
  unfold UDPHeader.to_bytesE at hb
  split at hb
  · cases hb
  · cases hb; rfl

theorem msg_to_bytesE_ok {m : UDPMessage} {b : List Nat} (hb : m.to_bytesE = .ok b) :
    m.header.to_bytesE = .ok (headerBytes m.header) ∧ b = headerBytes m.header ++ dumps m.data := by
  unfold UDPMessage.to_bytesE at hb
  cases hh : m.header.to_bytesE with
  | error e => rw [hh] at hb; cases hb
  | ok hbs =>
    have heq := hdr_to_bytesE_ok hh
    subst heq
    rw [hh] at hb
    simp only [bind, Except.bind, Except.ok.injEq] at hb
    exact ⟨rfl, hb.symm⟩

theorem from_bytesE_ok_type {data : List Nat} {msg : UDPMessage}
    (h : UDPMessage.from_bytesE data = .ok msg) : msgTypeE msg.data = .ok msg.type := by
  unfold UDPMessage.from_bytesE at h
  cases hh : UDPHeader.from_bytesE data with
  | error e => rw [hh] at h; cases h
  | ok hdr =>
    rw [hh] at h
    simp only [bind, Except.bind] at h
    split at h
    · cases ht : msgTypeE Json.null with
      | error e => rw [ht] at h; cases h
      | ok t => rw [ht] at h; cases h; exact ht
    · cases hl : jsonLoads (data.drop HEADER_SIZE) with
      | error e => rw [hl] at h; cases h
      | ok body =>
        rw [hl] at h
        dsimp only at h
        cases ht : msgTypeE body with
        | error e => rw [ht] at h; cases h
        | ok t => rw [ht] at h; cases h; exact ht

theorem msgTypeE_some_truthy {d : Json} {mt : MessageType}
    (h : msgTypeE d = .ok (some mt)) : truthy d = true := by
  by_contra hnt
  rw [Bool.not_eq_true] at hnt
  unfold msgTypeE at h
  rw [hnt] at h
  simp at h

/-- Claim C2, corrected: the client emits no acknowledgement at all for an
inbound frame that is not an ACK; the handler only passes the decoded
message to the receive listener and writes nothing to the transport. -/
theorem client_no_ack_for_inbound (st : ClientState) (data : List Nat) (msg : UDPMessage)
    (hd : UDPMessage.from_bytesE data = .ok msg) (hack : msg.header.ACK = false) :
    clientDatagramReceived st data = .ok (st, ⟨none, some msg, []⟩) := by
  unfold clientDatagramReceived
  rw [hd]
  simp only [bind, Except.bind]
  rw [hack]
  simp

/-- Claim C2, counterexample to the claim as stated: on a valid inbound CHT
broadcast frame the handler transmits zero datagrams, not exactly one ACK
with the same sequence number. -/
theorem client_no_ack_for_inbound_cex :
    clientDatagramReceived exClientSt chtInBytes = .ok (exClientSt, ⟨none, some chtInMsg, []⟩) ∧
    (⟨none, some chtInMsg, []⟩ : ClientOutcome).sent.length = 0 :=
  ⟨rfl, rfl⟩

/-- Witness for the corrected claim C2 at a concrete client state. -/
theorem client_no_ack_for_inbound_witness :
    clientDatagramReceived exClientStP chtInBytes = .ok (exClientStP, ⟨none, some chtInMsg, []⟩) :=
  client_no_ack_for_inbound exClientStP chtInBytes chtInMsg rfl rfl

/-- Claim C10, confirmed: the client ACK path is total only when the ACK
body is a dictionary.  An ACK whose decoded body is absent drives the
handler into the attribute access on None, which raises AttributeError;
an ACK with a dictionary body and no matching outstanding request leaves
the table unchanged and completes nothing. -/
theorem client_ack_handler_totality :
    (∀ (st : ClientState) (data : List Nat) (msg : UDPMessage),
      UDPMessage.from_bytesE data = .ok msg → msg.header.ACK = true → msg.data = .null →
      clientDatagramReceived st data = .error .attributeError) ∧
    (∀ (st : ClientState) (data : List Nat) (msg : UDPMessage) (kvs : JObj),
      UDPMessage.from_bytesE data = .ok msg → msg.header.ACK = true → msg.data = .obj kvs →
      st.future_responses.contains msg.header.SEQN = false →
      clientDatagramReceived st data = .ok (st, ⟨none, none, []⟩)) := by
  constructor
  · intro st data msg hd hack hnull
    unfold clientDatagramReceived
    rw [hd]
    simp only [bind, Except.bind]
    rw [hack, hnull]
    simp
  · intro st data msg kvs hd hack hobj hmiss
    have hnm : msg.header.SEQN ∉ st.future_responses := by
      simpa using hmiss
    unfold clientDatagramReceived
    rw [hd]
    simp only [bind, Except.bind]
    rw [hack, hobj]
    simp [hmiss, hnm]

/-- Witness for claim C10 on concrete ACK frames. -/
theorem client_ack_handler_totality_witness :
    clientDatagramReceived exClientStP ackEmptyBytes = .error .attributeError ∧
    clientDatagramReceived exClientStP ackObjBytes = .ok (exClientStP, ⟨none, none, []⟩) :=
  ⟨client_ack_handler_totality.1 exClientStP ackEmptyBytes
      ⟨⟨7, true, false, false⟩, .null, none⟩ rfl rfl rfl,
   client_ack_handler_totality.2 exClientStP ackObjBytes
      ⟨⟨7, true, false, false⟩, .obj (.cons "status".toList (.num 200) .nil), none⟩
      (.cons "status".toList (.num 200) .nil) rfl rfl rfl rfl⟩

theorem sendFresh_ok {st : ClientState} {d : Json} {m : UDPMessage} {b : List Nat}
    {st1 : ClientState} (h : sendFresh st d = .ok (m, b, st1)) :
    m.header.SEQN = (st.bytes_sent : Int) ∧ b.length = 7 + (dumps d).length ∧
    st1.bytes_sent = st.bytes_sent + b.length ∧ 7 ≤ b.length := by
  unfold sendFresh at h
  cases ht : msgTypeE d with
  | error e => rw [ht] at h; simp only [bind, Except.bind] at h; cases h
  | ok t =>
    rw [ht] at h
    simp only [bind, Except.bind] at h
    cases hb : UDPMessage.to_bytesE
        ⟨⟨(st.bytes_sent : Int), false, false, false⟩, d, t⟩ with
    | error e => rw [hb] at h; cases h
    | ok bs =>
      rw [hb] at h
      simp only [Except.ok.injEq, Prod.mk.injEq] at h
      obtain ⟨hm, hbs, hst⟩ := h
      obtain ⟨_, hshape⟩ := msg_to_bytesE_ok hb
      subst hm hbs hst hshape
      refine ⟨rfl, ?_, rfl, ?_⟩ <;> simp [headerBytes] <;> omega

theorem sendAll_spec : ∀ (ds : List Json) (st : ClientState) out stFin,
    sendAll st ds = .ok (out, stFin) →
    (∀ x ∈ out, (st.bytes_sent : Int) ≤ x.1.header.SEQN) ∧
    List.Pairwise (· < ·) (out.map (fun x => x.1.header.SEQN)) ∧
    (∀ x ∈ out, 7 ≤ x.2.length) ∧
    stFin.bytes_sent = st.bytes_sent + (out.map (fun x => x.2.length)).sum ∧
    List.Chain' (fun x y => y.1.header.SEQN = x.1.header.SEQN + (x.2.length : Int)) out ∧
    (∀ x ∈ out.head?, x.1.header.SEQN = (st.bytes_sent : Int)) := by
  intro ds
  induction ds with
  | nil =>
    intro st out stFin h
    simp only [sendAll, Except.ok.injEq, Prod.mk.injEq] at h
    obtain ⟨h1, h2⟩ := h
    subst h1 h2
    simp
  | cons d ds ih =>
    intro st out stFin h
    simp only [sendAll] at h
    cases hf : sendFresh st d with
    | error e => rw [hf] at h; simp only [bind, Except.bind] at h; cases h
    | ok v =>
      obtain ⟨m, b, st1⟩ := v
      rw [hf] at h
      simp only [bind, Except.bind] at h
      cases ha : sendAll st1 ds with
      | error e => rw [ha] at h; cases h
      | ok w =>
        obtain ⟨rest, st2⟩ := w
        rw [ha] at h
        simp only [Except.ok.injEq, Prod.mk.injEq] at h
        obtain ⟨hout, hst⟩ := h
        subst hout hst
        obtain ⟨hseqn, hlen, hnext, h7⟩ := sendFresh_ok hf
        obtain ⟨ihlb, ihpw, ih7, ihsum, ihch, ihhd⟩ := ih st1 rest _ ha
        have hlb : ∀ x ∈ rest, (st.bytes_sent : Int) + 7 ≤ x.1.header.SEQN := by
          intro x hx
          have h1 := ihlb x hx
          have h2 : (st.bytes_sent : Int) + 7 ≤ (st1.bytes_sent : Int) := by
            rw [hnext]; push_cast; omega
          omega
        refine ⟨?_, ?_, ?_, ?_, ?_, ?_⟩
        · intro x hx
          rcases List.mem_cons.1 hx with rfl | hx
          · exact hseqn.ge
          · have := hlb x hx; omega
        · rw [List.map_cons, List.pairwise_cons]
          refine ⟨?_, ihpw⟩
          intro s hs
          obtain ⟨x, hx, rfl⟩ := List.mem_map.1 hs
          have := hlb x hx
          rw [hseqn]
          omega
        · intro x hx
          rcases List.mem_cons.1 hx with rfl | hx
          · exact h7
          · exact ih7 x hx
        · rw [ihsum, hnext]
          simp only [List.map_cons, List.sum_cons]
          omega
        · rw [List.chain'_cons']
          refine ⟨?_, ihch⟩
          intro y hy
          have hyh := ihhd y hy
          rw [hyh, hseqn, hnext]
          push_cast
          ring
        · intro x hx
          simp only [List.head?_cons, Option.mem_def, Option.some.injEq] at hx
          subst hx
          exact hseqn

/-- Claim C5, confirmed: across a run of fresh sends on one client
endpoint the assigned sequence numbers are strictly increasing and
pairwise distinct; the first equals the running bytes_sent counter, each
later one equals its predecessor plus the serialized length of the
predecessor packet, every serialized packet is at least the seven header
bytes long, and the final counter has grown by the total bytes sent. -/
theorem client_seqn_monotone (st : ClientState) (ds : List Json)
    (out : List (UDPMessage × List Nat)) (stFin : ClientState)
    (h : sendAll st ds = .ok (out, stFin)) :
    List.Pairwise (· < ·) (out.map (fun x => x.1.header.SEQN)) ∧
    (∀ x ∈ out.head?, x.1.header.SEQN = (st.bytes_sent : Int)) ∧
    List.Chain' (fun x y => y.1.header.SEQN = x.1.header.SEQN + (x.2.length : Int)) out ∧
    (∀ x ∈ out, 7 ≤ x.2.length) ∧
    stFin.bytes_sent = st.bytes_sent + (out.map (fun x => x.2.length)).sum := by
  obtain ⟨_, h2, h3, h4, h5, h6⟩ := sendAll_spec ds st out stFin h
  exact ⟨h2, h6, h5, h3, h4⟩

/-- Witness for claim C5 on a concrete two-send run. -/
theorem client_seqn_monotone_witness :
    List.Pairwise (· < ·) (exSendOut.map (fun x => x.1.header.SEQN)) ∧
    (∀ x ∈ exSendOut.head?, x.1.header.SEQN = (exClientSt.bytes_sent : Int)) ∧
    List.Chain' (fun x y => y.1.header.SEQN = x.1.header.SEQN + (x.2.length : Int)) exSendOut ∧
    (∀ x ∈ exSendOut, 7 ≤ x.2.length) ∧
    exSendFin.bytes_sent = exClientSt.bytes_sent + (exSendOut.map (fun x => x.2.length)).sum :=
  client_seqn_monotone exClientSt exPayloads exSendOut exSendFin rfl

/-- Claim C6, confirmed: on any run of the retransmission loop that
reaches the timeout, the sleeps sum to at most the five second budget and
the TIMED_OUT failure is set exactly once; from the initial half second
delay with an exhausted ACK the loop performs exactly the sleeps one half,
one, two and three halves, reaching the budget and terminating. -/
theorem retransmission_backoff_bound :
    (∀ (fuel : Nat) (delay total : ℚ) (ds : List ℚ) (k : Nat), total ≤ MAX_TIMEOUT →
      verifyMessage delay total fuel = some (ds, k) →
      total + ds.sum ≤ MAX_TIMEOUT ∧ k = 1) ∧
    verifyMessage (1 / 2) 0 5 = some ([1 / 2, 1, 2, 3 / 2], 1) ∧ MAX_TIMEOUT = 5 := by
  refine ⟨?_, ?_, rfl⟩
  · intro fuel
    induction fuel with
    | zero => intro delay total ds k _ h; simp [verifyMessage] at h
    | succ f ih =>
      intro delay total ds k hle h
      rw [verifyMessage] at h
      split at h
      · rcases hrec : verifyMessage (delay * 2) (total + vmStep delay total) f with _ | ⟨ds0, k0⟩
        · rw [hrec] at h; simp at h
        · rw [hrec] at h
          simp only [Option.some.injEq, Prod.mk.injEq] at h
          obtain ⟨hds, hk⟩ := h
          have hnext : total + vmStep delay total ≤ MAX_TIMEOUT := by
            unfold vmStep; split <;> linarith
          obtain ⟨h1, h2⟩ := ih _ _ _ _ hnext hrec
          subst hds hk
          refine ⟨?_, h2⟩
          simp only [List.sum_cons]
          linarith
      · simp only [Option.some.injEq, Prod.mk.injEq] at h
        obtain ⟨hds, hk⟩ := h
        subst hds hk
        simpa using hle
  · norm_num [verifyMessage, MAX_TIMEOUT, vmStep]

/-- Witness for claim C6: the bound instantiated on the concrete run. -/
theorem retransmission_backoff_bound_witness :
    (0 : ℚ) + [(1 : ℚ) / 2, 1, 2, 3 / 2].sum ≤ MAX_TIMEOUT ∧ 1 = 1 :=
  retransmission_backoff_bound.1 5 (1 / 2) 0 [1 / 2, 1, 2, 3 / 2] 1
    (by norm_num [MAX_TIMEOUT]) retransmission_backoff_bound.2.1

/-- Claim C7, settled as a code bug: on a GRP_ADD request naming a fresh
group and the existing user alice, the dispatcher passes the socket
address tuple instead of the username to group_add.  The Room row is
committed, but the Member insert for the creator raises InterfaceError at
the sqlite binding, so the request is answered with status 500 and a null
response instead of status 200 with the group name, and no Member row
links alice to the new group. -/
theorem grp_add_creator_bug :
    serverDatagramReceived exDb grpAddBytes exAddr exNow [] =
      .ok (exDbAfterGrpAdd, [(grpAddAckBytes, exAddr)]) ∧
    getField grpAddAckBody "status".toList .null = .num 500 ∧
    exDb.users.any (fun u => sqlEqJ u.username (jstr "alice")) = true ∧
    exDbAfterGrpAdd.members = exDb.members :=
  ⟨rfl, rfl, rfl, rfl⟩

/-- Claim C8, counterexample to the claim as stated: encoding a message
with an absent body does not produce the bare seven header bytes; the
serializer appends the four byte text null. -/
theorem absent_body_encoding_cex :
    UDPMessage.to_bytesE ⟨⟨0, false, false, false⟩, .null, none⟩ =
      .ok [0, 0, 0, 0, 0, 0, 0, 110, 117, 108, 108] ∧
    ([0, 0, 0, 0, 0, 0, 0, 110, 117, 108, 108] : List Nat).length ≠ 7 :=
  ⟨rfl, by decide⟩

/-- Claim C8, corrected: encoding an absent body yields the seven header
bytes followed by the payload null (eleven bytes, never an empty payload),
while decoding a buffer of exactly seven bytes does yield an absent body
with no recognised type. -/
theorem absent_body_encoding :
    (∀ (h : UDPHeader) (t : Option MessageType), -(2 ^ 31) ≤ h.SEQN → h.SEQN < 2 ^ 31 →
      UDPMessage.to_bytesE ⟨h, .null, t⟩ = .ok (headerBytes h ++ [110, 117, 108, 108])) ∧
    (∀ data : List Nat, data.length = 7 → ∃ hdr, UDPHeader.from_bytesE data = .ok hdr ∧
      UDPMessage.from_bytesE data = .ok ⟨hdr, .null, none⟩) := by
  constructor
  · intro h t h1 h2
    unfold UDPMessage.to_bytesE UDPHeader.to_bytesE
    rw [if_neg]
    · rfl
    · simp only [Bool.or_eq_true, decide_eq_true_eq, not_or, not_lt, not_le]
      omega
  · intro data hlen
    rcases data with _ | ⟨b0, data⟩; · simp at hlen
    rcases data with _ | ⟨b1, data⟩; · simp at hlen
    rcases data with _ | ⟨b2, data⟩; · simp at hlen
    rcases data with _ | ⟨b3, data⟩; · simp at hlen
    rcases data with _ | ⟨b4, data⟩; · simp at hlen
    rcases data with _ | ⟨b5, data⟩; · simp at hlen
    rcases data with _ | ⟨b6, data⟩; · simp at hlen
    rcases data with _ | ⟨b7, data⟩
    · exact ⟨_, rfl, rfl⟩
    · simp at hlen

/-- Witness for the corrected claim C8. -/
theorem absent_body_encoding_witness :
    UDPMessage.to_bytesE ⟨⟨0, false, false, false⟩, .null, none⟩ =
      .ok (headerBytes ⟨0, false, false, false⟩ ++ [110, 117, 108, 108]) ∧
    (UDPMessage.from_bytesE [9, 9, 9, 9, 9, 9, 9]).map UDPMessage.data = .ok Json.null := by
  refine ⟨absent_body_encoding.1 ⟨0, false, false, false⟩ none (by decide) (by decide), ?_⟩
  obtain ⟨hdr, _, h2⟩ := absent_body_encoding.2 [9, 9, 9, 9, 9, 9, 9] rfl
  rw [h2]
  rfl

theorem group_send_shape {db : DB} {g : PyVal} {msg : UDPMessage} {sends : List (List Nat × Address)}
    (h : group_send db g msg = .ok sends) :
    ∀ p ∈ sends, p.1 = headerBytes msg.header ++ dumps msg.data := by
  unfold group_send at h
  cases ha : get_addresses_for_group db g with
  | error e => rw [ha] at h; simp only [bind, Except.bind] at h; cases h
  | ok addrs =>
    rw [ha] at h
    simp only [bind, Except.bind] at h
    cases hb : UDPMessage.to_bytesE msg with
    | error e => rw [hb] at h; cases h
    | ok bytes =>
      rw [hb] at h
      cases h
      obtain ⟨_, hsh⟩ := msg_to_bytesE_ok hb
      intro p hp
      obtain ⟨a, _, rfl⟩ := List.mem_map.1 hp
      exact hsh

theorem message_received_cht_sends {db : DB} {msg : UDPMessage} {addr : Address}
    {now : List Char} {salt : List Nat} {db1 : DB} {sends0 : List (List Nat × Address)}
    {st : Nat} {resp err : Json}
    (h : message_received db msg .CHT addr now salt = (db1, .ok (sends0, st, resp, err))) :
    ∀ p ∈ sends0, p.1 = headerBytes msg.header ++ dumps msg.data := by
  unfold message_received at h
  dsimp only at h
  split at h
  · cases h
  · rename_i t _
    cases hnm : new_message db (.jval (getField msg.data "group".toList (Json.str "default".toList)))
        (.jval (getField msg.data "username".toList (Json.str "root".toList)))
        (getField msg.data "text".toList Json.null) t with
    | mk db2 r =>
      rw [hnm] at h
      cases r with
      | error e =>
        dsimp only at h
        cases h
        simp
      | ok mid =>
        dsimp only at h
        cases hgs : group_send db2
            (.jval (getField msg.data "group".toList (Json.str "default".toList))) msg with
        | error e => rw [hgs] at h; cases h
        | ok sends1 =>
          rw [hgs] at h
          cases h
          exact group_send_shape hgs

/-- Claim C1, corrected: group_send serializes the exact decoded message
once per recipient and never rewrites the sequence number, so in a CHT
fan-out every broadcast copy carries the same packed header, hence the
same outer SEQN as the incoming packet, instead of pairwise distinct
ones. -/
theorem cht_broadcast_seqn_all_equal (db : DB) (data : List Nat) (addr : Address)
    (now : List Char) (salt : List Nat) (dbF : DB) (sends : List (List Nat × Address))
    (msg : UDPMessage)
    (hd : UDPMessage.from_bytesE data = .ok msg) (hty : msg.type = some .CHT)
    (hs : serverDatagramReceived db data addr now salt = .ok (dbF, sends)) :
    ∃ copies ackB,
      sends = copies ++ [(ackB, addr)] ∧
      (∀ p ∈ copies, p.1 = headerBytes msg.header ++ dumps msg.data) := by
  have htyE := from_bytesE_ok_type hd
  rw [hty] at htyE
  have htr := msgTypeE_some_truthy htyE
  unfold serverDatagramReceived at hs
  rw [hd] at hs
  simp only [bind, Except.bind] at hs
  rw [htr, hty] at hs
  dsimp only at hs
  rcases hmr : message_received db msg .CHT addr now salt with ⟨db1, r⟩
  rw [hmr] at hs
  cases r with
  | error e => dsimp only at hs; cases hs
  | ok v =>
    obtain ⟨sends0, st, resp, err⟩ := v
    dsimp only at hs
    cases hab : UDPMessage.to_bytesE
        ⟨⟨msg.header.SEQN, true, false, false⟩,
         .obj (.cons "status".toList (.num (st : Int))
               (.cons "error".toList err (.cons "response".toList resp .nil))), none⟩ with
    | error e => rw [hab] at hs; simp only [bind, Except.bind] at hs; cases hs
    | ok ab =>
      rw [hab] at hs
      simp only [bind, Except.bind, Except.ok.injEq, Prod.mk.injEq] at hs
      obtain ⟨hdb, hsends⟩ := hs
      refine ⟨sends0, ab, hsends.symm, ?_⟩
      exact message_received_cht_sends hmr

/-- Claim C1, counterexample to the claim as stated: a concrete CHT
fan-out to the two subscribers of group g emits two broadcast copies that
are byte-identical, both carrying outer SEQN seven, so the outer SEQNs are
not pairwise distinct. -/
theorem cht_broadcast_seqn_all_equal_cex :
    serverDatagramReceived exDb chtFanBytes exAddr exNow [] =
      .ok (exDbAfterCht, [(chtFanBytes, addrH1), (chtFanBytes, addrH2), (chtAckBytes, exAddr)]) ∧
    addrH1 ≠ addrH2 ∧
    (UDPMessage.from_bytesE chtFanBytes).map (fun m => m.header.SEQN) = .ok 7 :=
  ⟨rfl, by decide, rfl⟩

/-- Witness for the corrected claim C1: the first broadcast copy of the
concrete fan-out is exactly the re-encoded incoming message, whose header
still carries SEQN seven. -/
theorem cht_broadcast_seqn_all_equal_witness :
    chtFanBytes = headerBytes chtFanMsg.header ++ dumps chtFanMsg.data ∧
    chtFanMsg.header.SEQN = 7 := by
  obtain ⟨copies, ackB, heq, hall⟩ :=
    cht_broadcast_seqn_all_equal exDb chtFanBytes exAddr exNow [] exDbAfterCht
      [(chtFanBytes, addrH1), (chtFanBytes, addrH2), (chtAckBytes, exAddr)] chtFanMsg rfl rfl rfl
  rcases copies with _ | ⟨c1, copies⟩
  · simp at heq
  rcases copies with _ | ⟨c2, copies⟩
  · simp at heq
  rcases copies with _ | ⟨c3, copies⟩
  · simp only [List.cons_append, List.nil_append, List.cons.injEq] at heq
    obtain ⟨h1, h2, h3⟩ := heq
    refine ⟨?_, rfl⟩
    have hc := hall c1 (by simp)
    rw [← h1] at hc
    exact hc
  · simp at heq

/-- Claim C4, corrected: whenever the server handler processes a datagram
without raising, it transmits exactly one acknowledgement, sent last, to
the origin address, carrying the incoming SEQN with the ACK bit; its body
is the empty object when the body is not truthy or has no recognised
type, and the status, error and response triple filled by the dispatcher
when it has one.  The claim as stated fails for well-formed datagrams
whose bodies drive the handler into an unhandled exception (see the
counterexample). -/
theorem server_ack_per_datagram (db : DB) (data : List Nat) (addr : Address)
    (now : List Char) (salt : List Nat) (dbF : DB) (sends : List (List Nat × Address))
    (hs : serverDatagramReceived db data addr now salt = .ok (dbF, sends)) :
    ∃ msg copies ackBody ackBytes,
      UDPMessage.from_bytesE data = .ok msg ∧
      UDPMessage.to_bytesE ⟨⟨msg.header.SEQN, true, false, false⟩, ackBody, none⟩ = .ok ackBytes ∧
      sends = copies ++ [(ackBytes, addr)] ∧
      ((truthy msg.data = false ∨ msg.type = none) → (ackBody = .obj .nil ∧ copies = [])) ∧
      (∀ mt, msg.type = some mt →
        ∃ st err resp, ackBody = .obj (.cons "status".toList (.num st)
          (.cons "error".toList err (.cons "response".toList resp .nil)))) := by
  unfold serverDatagramReceived at hs
  cases hd : UDPMessage.from_bytesE data with
  | error e => rw [hd] at hs; simp only [bind, Except.bind] at hs; cases hs
  | ok msg =>
    rw [hd] at hs
    simp only [bind, Except.bind] at hs
    cases htr : truthy msg.data with
    | true =>
      cases hty : msg.type with
      | some mt =>
        rw [htr, hty] at hs
        dsimp only at hs
        rcases hmr : message_received db msg mt addr now salt with ⟨db1, r⟩
        rw [hmr] at hs
        cases r with
        | error e => dsimp only at hs; cases hs
        | ok v =>
          obtain ⟨sends0, st, resp, err⟩ := v
          dsimp only at hs
          cases hab : UDPMessage.to_bytesE
              ⟨⟨msg.header.SEQN, true, false, false⟩,
               .obj (.cons "status".toList (.num (st : Int))
                     (.cons "error".toList err (.cons "response".toList resp .nil))), none⟩ with
          | error e => rw [hab] at hs; simp only [bind, Except.bind] at hs; cases hs
          | ok ab =>
            rw [hab] at hs
            simp only [bind, Except.bind, Except.ok.injEq, Prod.mk.injEq] at hs
            obtain ⟨hdb, hsends⟩ := hs
            refine ⟨msg, sends0, _, ab, rfl, hab, hsends.symm, ?_, ?_⟩
            · intro hcase
              rcases hcase with hf | hn
              · rw [htr] at hf; cases hf
              · rw [hty] at hn; cases hn
            · intro mt2 _
              exact ⟨(st : Int), err, resp, rfl⟩
      | none =>
        rw [htr, hty] at hs
        dsimp only at hs
        cases hab : UDPMessage.to_bytesE ⟨⟨msg.header.SEQN, true, false, false⟩, .obj .nil, none⟩ with
        | error e => rw [hab] at hs; simp only [bind, Except.bind] at hs; cases hs
        | ok ab =>
          rw [hab] at hs
          simp only [bind, Except.bind, Except.ok.injEq, Prod.mk.injEq] at hs
          obtain ⟨hdb, hsends⟩ := hs
          refine ⟨msg, [], .obj .nil, ab, rfl, hab, by simpa using hsends.symm,
            fun _ => ⟨rfl, rfl⟩, ?_⟩
          intro mt2 hmt
          rw [hty] at hmt; cases hmt
    | false =>
      rw [htr] at hs
      cases hty : msg.type with
      | some mt =>
        exfalso
        have htyE := from_bytesE_ok_type hd
        rw [hty] at htyE
        have hcontr := msgTypeE_some_truthy htyE
        rw [htr] at hcontr
        cases hcontr
      | none =>
        rw [hty] at hs
        dsimp only at hs
        cases hab : UDPMessage.to_bytesE ⟨⟨msg.header.SEQN, true, false, false⟩, .obj .nil, none⟩ with
        | error e => rw [hab] at hs; simp only [bind, Except.bind] at hs; cases hs
        | ok ab =>
          rw [hab] at hs
          simp only [bind, Except.bind, Except.ok.injEq, Prod.mk.injEq] at hs
          obtain ⟨hdb, hsends⟩ := hs
          refine ⟨msg, [], .obj .nil, ab, rfl, hab, by simpa using hsends.symm,
            fun _ => ⟨rfl, rfl⟩, ?_⟩
          intro mt2 hmt
          rw [hty] at hmt; cases hmt

/-- Claim C4, counterexample to the claim as stated: the well-formed
datagram with header SEQN five and body the JSON list holding the string
type drives the UDPMessage initializer into the TypeError of indexing a
list with a string, so the handler raises and transmits no ACK at all. -/
theorem server_ack_per_datagram_cex :
    serverDatagramReceived exDb typeListBytes exAddr exNow [] = .error .typeError ∧
    jsonLoads (typeListBytes.drop 7) = .ok (.arr (.cons (jstr "type") .nil)) ∧
    (UDPHeader.from_bytesE typeListBytes).map UDPHeader.SEQN = .ok 5 :=
  ⟨rfl, rfl, rfl⟩

/-- Witness for the corrected claim C4 on the SYN handshake frame: the
acknowledgement derived by the theorem is the packet with SEQN zero, the
ACK bit and the empty object body. -/
theorem server_ack_per_datagram_witness :
    UDPMessage.to_bytesE ⟨⟨0, true, false, false⟩, .obj .nil, none⟩ =
      .ok [0, 0, 0, 0, 1, 0, 0, 123, 125] := by
  obtain ⟨msg, copies, ackBody, ackBytes, hd, hab, hsends, hempty, hdisp⟩ :=
    server_ack_per_datagram exDb synBytes exAddr exNow [] exDb
      [([0, 0, 0, 0, 1, 0, 0, 123, 125], exAddr)] rfl
  have hmsg : msg = ⟨⟨0, false, true, false⟩, .null, none⟩ := by
    have h2 : UDPMessage.from_bytesE synBytes = .ok ⟨⟨0, false, true, false⟩, .null, none⟩ := rfl
    exact Except.ok.inj (hd.symm.trans h2)
  subst hmsg
  obtain ⟨hbody, hcopies⟩ := hempty (Or.inl rfl)
  subst hbody hcopies
  simp only [List.nil_append, List.cons.injEq, Prod.mk.injEq, and_true] at hsends
  rw [← hsends] at hab
  exact hab

theorem char_toNat_ofNat {n : Nat} (h : n < 128) : (Char.ofNat n).toNat = n := by
  unfold Char.ofNat Char.toNat
  split
  · rfl
  · rename_i hv
    exfalso
    exact hv (Or.inl (by omega))

theorem b64DecChar_encChar : ∀ n, n < 64 → b64DecChar (b64EncChar n) = some n := by decide

theorem b64EncChar_ne : ∀ n, n < 64 → b64EncChar n ≠ 61 ∧ b64EncChar n ≠ 10 ∧ b64EncChar n < 128 := by
  decide

theorem b64encode_chars : ∀ (x : List Nat), (∀ b ∈ x, b < 256) →
    ∀ c ∈ b64encode x, (b64DecChar c).isSome ∨ c = 61
  | [], _ => by simp [b64encode]
  | [a], hb => by
    have ha : a < 256 := hb a (by simp)
    simp only [b64encode, List.mem_cons, List.not_mem_nil, or_false]
    intro c hc
    rcases hc with rfl | rfl | rfl | rfl
    · exact Or.inl (by rw [b64DecChar_encChar _ (by omega)]; simp)
    · exact Or.inl (by rw [b64DecChar_encChar _ (by omega)]; simp)
    · exact Or.inr rfl
    · exact Or.inr rfl
  | [a, b], hb => by
    have ha : a < 256 := hb a (by simp)
    have hbb : b < 256 := hb b (by simp)
    simp only [b64encode, List.mem_cons, List.not_mem_nil, or_false]
    intro c hc
    rcases hc with rfl | rfl | rfl | rfl
    · exact Or.inl (by rw [b64DecChar_encChar _ (by omega)]; simp)
    · exact Or.inl (by rw [b64DecChar_encChar _ (by omega)]; simp)
    · exact Or.inl (by rw [b64DecChar_encChar _ (by omega)]; simp)
    · exact Or.inr rfl
  | a :: b :: c :: rest, hb => by
    have ha : a < 256 := hb a (by simp)
    have hbb : b < 256 := hb b (by simp)
    have hcc : c < 256 := hb c (by simp)
    have ih := b64encode_chars rest (fun x hx => hb x (by simp [hx]))
    simp only [b64encode, List.mem_cons]
    intro d hd
    rcases hd with rfl | rfl | rfl | rfl | hd
    · exact Or.inl (by rw [b64DecChar_encChar _ (by omega)]; simp)
    · exact Or.inl (by rw [b64DecChar_encChar _ (by omega)]; simp)
    · exact Or.inl (by rw [b64DecChar_encChar _ (by omega)]; simp)
    · exact Or.inl (by rw [b64DecChar_encChar _ (by omega)]; simp)
    · exact ih d hd


theorem b64EncChar_ne61 {n : Nat} (h : n < 64) : b64EncChar n ≠ 61 :=
  (b64EncChar_ne n h).1

theorem sextOk {n : Nat} (h : n < 64) :
    (match b64DecChar (b64EncChar n) with
      | some v => Except.ok v
      | none => Except.error Exc.valueError : Except Exc Nat) = .ok n := by
  rw [b64DecChar_encChar n h]

theorem b64Quads_encode : ∀ (x : List Nat) (f : Nat), (∀ b ∈ x, b < 256) →
    (b64encode x).length < f → b64Quads f (b64encode x) = .ok x
  | [], f, _, _ => by
    cases f <;> simp [b64encode, b64Quads]
  | [a], f, hb, hf => by
    have ha : a < 256 := hb a (by simp)
    match f, hf with
    | f + 1, _ =>
      simp only [b64encode, b64Quads]
      rw [b64DecChar_encChar _ (by omega : a / 4 < 64),
          b64DecChar_encChar _ (by omega : a % 4 * 16 < 64)]
      simp only [bind, Except.bind, if_true]
      simp only [Except.ok.injEq, List.cons.injEq, and_true]
      omega
  | [a, b], f, hb, hf => by
    have ha : a < 256 := hb a (by simp)
    have hbb : b < 256 := hb b (by simp)
    match f, hf with
    | f + 1, _ =>
      simp only [b64encode, b64Quads]
      rw [b64DecChar_encChar _ (by omega : a / 4 < 64),
          b64DecChar_encChar _ (by omega : a % 4 * 16 + b / 16 < 64)]
      simp only [bind, Except.bind]
      rw [if_neg (b64EncChar_ne61 (by omega : b % 16 * 4 < 64))]
      rw [b64DecChar_encChar _ (by omega : b % 16 * 4 < 64)]
      simp only [bind, Except.bind, if_true]
      simp only [Except.ok.injEq, List.cons.injEq, and_true]
      omega
  | a :: b :: c :: rest, f, hb, hf => by
    have ha : a < 256 := hb a (by simp)
    have hbb : b < 256 := hb b (by simp)
    have hcc : c < 256 := hb c (by simp)
    match f, hf with
    | f + 1, hf =>
      have hlen : (b64encode rest).length < f := by
        simp only [b64encode, List.length_cons] at hf
        omega
      have ih := b64Quads_encode rest f (fun x hx => hb x (by simp [hx])) hlen
      simp only [b64encode, b64Quads]
      rw [b64DecChar_encChar _ (by omega : a / 4 < 64),
          b64DecChar_encChar _ (by omega : a % 4 * 16 + b / 16 < 64)]
      simp only [bind, Except.bind]
      rw [if_neg (b64EncChar_ne61 (by omega : b % 16 * 4 + c / 64 < 64))]
      rw [b64DecChar_encChar _ (by omega : b % 16 * 4 + c / 64 < 64)]
      simp only [bind, Except.bind]
      rw [if_neg (b64EncChar_ne61 (by omega : c % 64 < 64))]
      rw [b64DecChar_encChar _ (by omega : c % 64 < 64)]
      simp only [bind, Except.bind]
      rw [ih]
      simp only [bind, Except.bind]
      simp only [Except.ok.injEq, List.cons.injEq, and_true]
      omega

theorem b64_filter_encode {x : List Nat} (hb : ∀ b ∈ x, b < 256) :
    (b64encode x ++ [10]).filter (fun c => (b64DecChar c).isSome || c = 61) = b64encode x := by
  rw [List.filter_append]
  have h1 : (b64encode x).filter (fun c => (b64DecChar c).isSome || c = 61) = b64encode x := by
    rw [List.filter_eq_self]
    intro c hc
    rcases b64encode_chars x hb c hc with h | h
    · simp [h]
    · simp [h]
  rw [h1]
  simp [b64DecChar]

theorem b64encode_lt128 {x : List Nat} (hb : ∀ b ∈ x, b < 256) :
    ∀ c ∈ b64encode x ++ [10], c < 128 := by
  intro c hc
  rcases List.mem_append.1 hc with hc | hc
  · rcases b64encode_chars x hb c hc with h | h
    · unfold b64DecChar at h
      split_ifs at h <;> simp_all <;> omega
    · omega
  · simp at hc
    omega

theorem encodebytes_small {x : List Nat} (hlen : x.length ≤ 45) (hne : x ≠ []) :
    encodebytes x = b64encode x ++ [10] := by
  match x, hne with
  | a :: tl, _ =>
    have ht : (a :: tl).take 45 = a :: tl := List.take_of_length_le hlen
    have hd : (a :: tl).drop 45 = [] := List.drop_eq_nil_of_le hlen
    unfold encodebytes
    rw [List.length_cons, encodebytesGo, ht, hd, encodebytesGo]
    all_goals simp

theorem b64decode_encodebytes {x : List Nat} (hb : ∀ b ∈ x, b < 256)
    (hlen : x.length ≤ 45) (hne : x ≠ []) :
    b64decode (encodebytes x) = .ok x := by
  rw [encodebytes_small hlen hne]
  unfold b64decode
  dsimp only
  rw [b64_filter_encode hb]
  exact b64Quads_encode x _ hb (by omega)

theorem sha256_length (m : List Nat) : (sha256 m).length = 32 := by
  simp [sha256, wordBytes]

theorem sha256_bound (m : List Nat) : ∀ b ∈ sha256 m, b < 256 := by
  intro b hb
  simp only [sha256, wordBytes, List.append_assoc, List.mem_append, List.mem_cons,
    List.not_mem_nil, or_false] at hb
  rcases hb with h | h | h | h | h | h | h | h <;>
    rcases h with h | h | h | h <;> subst h <;> omega

theorem hmac_length (k m : List Nat) : (hmacSha256 k m).length = 32 := sha256_length _

theorem hmac_bound (k m : List Nat) : ∀ b ∈ hmacSha256 k m, b < 256 := sha256_bound _

theorem zipXor_bound : ∀ (a c : List Nat), ∀ b ∈ List.zipWith bxor8 a c, b < 256
  | [], _ => by simp
  | _ :: _, [] => by simp
  | x :: a, y :: c => by
    intro b hbm
    rcases List.mem_cons.1 hbm with rfl | hbm
    · unfold bxor8
      omega
    · exact zipXor_bound a c b hbm

theorem pbkdf2Go_length (p : List Nat) : ∀ (n : Nat) (u acc : List Nat),
    acc.length = 32 → (pbkdf2Go p n u acc).length = 32
  | 0, u, acc, h => h
  | n + 1, u, acc, h => by
    rw [pbkdf2Go]
    apply pbkdf2Go_length p n
    rw [List.length_zipWith, h, hmac_length]
    simp

theorem pbkdf2Go_bound (p : List Nat) : ∀ (n : Nat) (u acc : List Nat),
    (∀ b ∈ acc, b < 256) → ∀ b ∈ pbkdf2Go p n u acc, b < 256
  | 0, u, acc, h => h
  | n + 1, u, acc, h => by
    rw [pbkdf2Go]
    exact pbkdf2Go_bound p n _ _ (zipXor_bound _ _)

theorem pbkdf2_length (p s : List Nat) (it : Nat) : (pbkdf2HmacSha256 p s it).length = 32 := by
  unfold pbkdf2HmacSha256
  exact pbkdf2Go_length p _ _ _ (hmac_length _ _)

theorem pbkdf2_bound (p s : List Nat) (it : Nat) : ∀ b ∈ pbkdf2HmacSha256 p s it, b < 256 := by
  unfold pbkdf2HmacSha256
  exact pbkdf2Go_bound p _ _ _ (hmac_bound _ _)

theorem map_toNat_bytesToChars {l : List Nat} (h : ∀ b ∈ l, b < 128) :
    (bytesToChars l).map Char.toNat = l := by
  unfold bytesToChars
  rw [List.map_map]
  have hc : ∀ b ∈ l, (Char.toNat ∘ Char.ofNat) b = id b := by
    intro b hb
    simp only [Function.comp_apply, id_eq]
    exact char_toNat_ofNat (h b hb)
  rw [List.map_congr_left hc, List.map_id]


/-- Claim C9, confirmed: verifying a password against the salt and hash
pair that hash_new_password produced for it under any 16-byte salt
succeeds, and verifying any candidate returns exactly the equality of the
stored PBKDF2-HMAC-SHA256 digest with the digest recomputed under the
candidate, so a candidate with a different digest is rejected. -/
theorem password_round_trip (pw pwo : List Char) (salt : List Nat)
    (hlen : salt.length = 16) (hb : ∀ b ∈ salt, b < 256) :
    is_correct_password (hash_new_password (utf8Encode pw) salt).1
        (hash_new_password (utf8Encode pw) salt).2 (.str pw) = .ok true ∧
    is_correct_password (hash_new_password (utf8Encode pw) salt).1
        (hash_new_password (utf8Encode pw) salt).2 (.str pwo) =
      .ok (pbkdf2HmacSha256 (utf8Encode pw) salt 100000 ==
           pbkdf2HmacSha256 (utf8Encode pwo) salt 100000) := by
  have hsne : salt ≠ [] := by intro h; rw [h] at hlen; cases hlen
  have hdgb := pbkdf2_bound (utf8Encode pw) salt 100000
  have hdgl := pbkdf2_length (utf8Encode pw) salt 100000
  have hdgne : pbkdf2HmacSha256 (utf8Encode pw) salt 100000 ≠ [] := by
    intro h
    rw [h] at hdgl
    cases hdgl
  have h1 : (bytesToChars (encodebytes salt)).map Char.toNat = encodebytes salt :=
    map_toNat_bytesToChars (by rw [encodebytes_small (by omega) hsne]; exact b64encode_lt128 hb)
  have h2 : (bytesToChars (encodebytes (pbkdf2HmacSha256 (utf8Encode pw) salt 100000))).map
      Char.toNat = encodebytes (pbkdf2HmacSha256 (utf8Encode pw) salt 100000) :=
    map_toNat_bytesToChars (by rw [encodebytes_small (by omega) hdgne]; exact b64encode_lt128 hdgb)
  have hds : b64decode (encodebytes salt) = .ok salt := b64decode_encodebytes hb (by omega) hsne
  have hdd : b64decode (encodebytes (pbkdf2HmacSha256 (utf8Encode pw) salt 100000)) =
      .ok (pbkdf2HmacSha256 (utf8Encode pw) salt 100000) :=
    b64decode_encodebytes hdgb (by omega) hdgne
  unfold is_correct_password hash_new_password
  dsimp only
  rw [h1, h2, hds, hdd]
  simp only [bind, Except.bind]
  constructor
  · simp
  · trivial

/-- Witness for claim C9 at a concrete password pair and salt. -/
theorem password_round_trip_witness :
    is_correct_password (hash_new_password (utf8Encode "p".toList) (List.range 16)).1
        (hash_new_password (utf8Encode "p".toList) (List.range 16)).2 (.str "p".toList) =
      .ok true ∧
    is_correct_password (hash_new_password (utf8Encode "p".toList) (List.range 16)).1
        (hash_new_password (utf8Encode "p".toList) (List.range 16)).2 (.str "q".toList) =
      .ok (pbkdf2HmacSha256 (utf8Encode "p".toList) (List.range 16) 100000 ==
           pbkdf2HmacSha256 (utf8Encode "q".toList) (List.range 16) 100000) :=
  password_round_trip "p".toList "q".toList (List.range 16) (by decide) (by decide)

theorem dRev_spec : ∀ (n f : Nat), n ≤ f →
    (∀ d ∈ dRev (f + 1) n, d < 10) ∧ ofR (dRev (f + 1) n) = n := by
  intro n
  induction n using Nat.strong_induction_on with
  | _ n ih =>
    intro f hf
    rw [dRev]
    split
    · rename_i h10
      constructor
      · intro d hd
        simp at hd
        omega
      · simp [ofR]
    · rename_i h10
      push_neg at h10
      obtain ⟨f, rfl⟩ : ∃ g, f = g + 1 := ⟨f - 1, by omega⟩
      have hrec : n / 10 < n := Nat.div_lt_self (by omega) (by omega)
      obtain ⟨ihd, ihv⟩ := ih (n / 10) hrec f (by omega)
      constructor
      · intro d hd
        rcases List.mem_cons.1 hd with rfl | hd
        · omega
        · exact ihd d hd
      · rw [ofR, ihv]
        omega

theorem dRev_last_ne_zero : ∀ (n f : Nat), 1 ≤ n → n ≤ f →
    ∀ d ∈ (dRev (f + 1) n).getLast?, d ≠ 0 := by
  intro n
  induction n using Nat.strong_induction_on with
  | _ n ih =>
    intro f h1 hf
    rw [dRev]
    split
    · rename_i h10
      intro d hd
      simp at hd
      omega
    · rename_i h10
      push_neg at h10
      obtain ⟨f, rfl⟩ : ∃ g, f = g + 1 := ⟨f - 1, by omega⟩
      have hrec : n / 10 < n := Nat.div_lt_self (by omega) (by omega)
      intro d hd
      obtain ⟨x, xs, hxe⟩ := List.exists_cons_of_ne_nil (dRev_succ_ne_nil (f := f) (n := n / 10))
      rw [hxe, List.getLast?_cons_cons, ← hxe] at hd
      exact ih (n / 10) hrec f (by omega) (by omega) d hd

theorem foldl_digits (L : List Nat) (hL : ∀ d ∈ L, d < 10) : ∀ (acc : Nat),
    List.foldl (fun a c => a * 10 + (c - 48)) acc (L.reverse.map (fun d => 48 + d)) =
      acc * 10 ^ L.length + ofR L := by
  induction L with
  | nil => intro acc; simp [ofR]
  | cons d T ihT =>
    intro acc
    have hd : d < 10 := hL d (by simp)
    simp only [List.reverse_cons, List.map_append, List.map_cons, List.map_nil,
      List.foldl_append, List.foldl_cons, List.foldl_nil]
    rw [ihT (fun x hx => hL x (by simp [hx])) acc]
    simp only [ofR, List.length_cons]
    ring_nf
    omega

theorem serNat_digits (n : Nat) : ∀ c ∈ serNat n, isDigitB c = true := by
  intro c hc
  unfold serNat at hc
  obtain ⟨d, hd, rfl⟩ := List.mem_map.1 hc
  rw [List.mem_reverse] at hd
  have := (dRev_spec n n le_rfl).1 d hd
  unfold isDigitB
  simp only [Bool.and_eq_true, decide_eq_true_eq]
  omega

theorem digitsVal_serNat (n : Nat) : digitsVal (serNat n) = n := by
  unfold digitsVal serNat
  rw [foldl_digits _ (dRev_spec n n le_rfl).1 0]
  rw [(dRev_spec n n le_rfl).2]
  simp

theorem serNat_no_leading_zero (n : Nat) (hlen : 1 < (serNat n).length) :
    (serNat n).headD 0 ≠ 48 := by
  unfold serNat at hlen ⊢
  by_cases h10 : n < 10
  · exfalso
    rw [dRev] at hlen
    rw [if_pos h10] at hlen
    simp at hlen
  · have hne := dRev_succ_ne_nil (f := n) (n := n)
    obtain ⟨x, xs, hxe⟩ := List.exists_cons_of_ne_nil (List.reverse_ne_nil_iff.2 hne)
    have hlast : (dRev (n + 1) n).getLast? = some x := by
      rw [← List.head?_reverse, hxe]
      rfl
    have hx0 : x ≠ 0 :=
      dRev_last_ne_zero n n (by omega) le_rfl x (by rw [hlast]; rfl)
    rw [hxe]
    simp only [List.map_cons, List.headD_cons]
    omega

theorem takeWhile_app {p : Nat → Bool} : ∀ (l r : List Nat), (∀ c ∈ l, p c = true) →
    (∀ c ∈ r.head?, p c = false) →
    (l ++ r).takeWhile p = l ∧ (l ++ r).dropWhile p = r := by
  intro l
  induction l with
  | nil =>
    intro r _ hr
    cases r with
    | nil => simp
    | cons c t =>
      have := hr c rfl
      simp [List.takeWhile, List.dropWhile, this]
  | cons x l ihl =>
    intro r hl hr
    have hx := hl x (by simp)
    obtain ⟨h1, h2⟩ := ihl r (fun c hc => hl c (by simp [hc])) hr
    simp only [List.cons_append, List.takeWhile_cons, List.dropWhile_cons, hx]
    simp [h1, h2]

theorem parseNatTok_ser (neg : Bool) (m : Nat) (rest : List Nat) (hdelim : numDelim rest) :
    parseNatTok neg (serNat m ++ rest) =
      some (if neg then -(m : Int) else (m : Int), rest) := by
  have hrest : ∀ c ∈ rest.head?, isDigitB c = false := fun c hc => (hdelim c hc).1
  obtain ⟨htw, hdw⟩ := takeWhile_app (serNat m) rest (serNat_digits m) hrest
  unfold parseNatTok
  rw [htw, hdw]
  rw [if_neg (by simp [serNat_ne_nil m])]
  have hlz : (decide ((serNat m).length > 1) && ((serNat m).headD 0 == 48)) = false := by
    by_cases hl : 1 < (serNat m).length
    · have hz := serNat_no_leading_zero m hl
      simp only [Bool.and_eq_false_iff, beq_eq_false_iff_ne]
      right
      exact hz
    · simp only [gt_iff_lt, Bool.and_eq_false_iff]
      left
      simp only [decide_eq_false_iff_not]
      omega
  rw [hlz]
  simp only [Bool.false_eq_true, if_false]
  have hfl : (rest.head? == some 46 || rest.head? == some 101 || rest.head? == some 69) = false := by
    cases hr : rest.head? with
    | none => simp
    | some c =>
      have hc := hdelim c (by rw [hr]; rfl)
      simp [hc.2.1, hc.2.2.1, hc.2.2.2.1]
  rw [hfl]
  simp only [Bool.false_eq_true, if_false]
  rw [digitsVal_serNat]

theorem parseIntTok_ser (n : Int) (rest : List Nat) (hdelim : numDelim rest) :
    parseIntTok (serInt n ++ rest) = some (n, rest) := by
  cases n with
  | ofNat m =>
    have hser : serInt (Int.ofNat m) = serNat m := by
      unfold serInt
      rw [Int.ofNat_eq_coe, Int.natAbs_ofNat]
      rw [if_neg (by omega)]
    rw [hser]
    obtain ⟨c0, cs0, hc0⟩ := List.exists_cons_of_ne_nil (serNat_ne_nil m)
    have hc0d : isDigitB c0 = true := serNat_digits m c0 (by rw [hc0]; simp)
    have hc045 : c0 ≠ 45 := by
      unfold isDigitB at hc0d
      simp only [Bool.and_eq_true, decide_eq_true_eq] at hc0d
      omega
    have hh1 : (serNat m ++ rest).head? = some c0 := by rw [hc0]; rfl
    unfold parseIntTok
    rw [hh1]
    rw [show ((some c0 == some 45) = false) from by simp [hc045]]
    simp only [Bool.false_eq_true, if_false]
    rw [parseNatTok_ser false m rest hdelim]
    rfl
  | negSucc m =>
    have hser : serInt (Int.negSucc m) = 45 :: serNat (m + 1) := by
      unfold serInt
      rw [if_pos (Int.negSucc_lt_zero m)]
      rfl
    rw [hser]
    unfold parseIntTok
    rw [List.cons_append]
    rw [show (((45 :: (serNat (m + 1) ++ rest)).head? == some 45) = true) from by simp]
    simp only [if_true, List.tail_cons]
    rw [parseNatTok_ser true (m + 1) rest hdelim]
    rfl


theorem sz_pos (j : Json) : 1 ≤ sz j := by
  cases j <;> simp [sz] <;> omega

mutual

theorem szBound : ∀ j : Json, sz j ≤ (dumps j).length
  | .null => by simp [sz, dumps]
  | .bool true => by simp [sz, dumps]
  | .bool false => by simp [sz, dumps]
  | .num n => by
    simp only [sz, dumps]
    have h := List.length_pos.2 (serNat_ne_nil n.natAbs)
    unfold serInt
    split <;> simp <;> omega
  | .str s => by
    simp only [sz, dumps, serStr]
    simp
  | .arr .nil => by simp [sz, szL, dumps]
  | .arr (.cons x tl) => by
    have h1 := szBound x
    have h2 := szBoundL tl
    simp only [sz, szL, dumps]
    simp only [List.length_cons, List.length_append]
    omega
  | .obj .nil => by simp [sz, szO, dumps]
  | .obj (.cons k v tl) => by
    have h1 := szBound v
    have h2 := szBoundO tl
    simp only [sz, szO, dumps]
    simp only [List.length_cons, List.length_append]
    omega

theorem szBoundL : ∀ l : JList, szL l ≤ (dumpsL l).length
  | .nil => by simp [szL, dumpsL]
  | .cons x tl => by
    have h1 := szBound x
    have h2 := szBoundL tl
    simp only [szL, dumpsL]
    simp only [List.length_cons, List.length_append]
    omega

theorem szBoundO : ∀ o : JObj, szO o ≤ (dumpsO o).length
  | .nil => by simp [szO, dumpsO]
  | .cons k v tl => by
    have h1 := szBound v
    have h2 := szBoundO tl
    simp only [szO, dumpsO]
    simp only [List.length_cons, List.length_append]
    omega

end

theorem skipWs_append_ws : ∀ (ws l : List Nat), allWs ws → skipWs (ws ++ l) = skipWs l := by
  intro ws
  induction ws with
  | nil => intro l _; rfl
  | cons c t ih =>
    intro l hws
    have hc : isWs c = true := hws c (by simp)
    simp only [List.cons_append, skipWs, List.dropWhile_cons, hc]
    exact ih l (fun x hx => hws x (by simp [hx]))

theorem skipWs_cons_not_ws {c : Nat} (t : List Nat) (hc : isWs c = false) :
    skipWs (c :: t) = c :: t := by
  simp [skipWs, List.dropWhile_cons, hc]

theorem escChar_ne_nil (c : Char) : escChar c ≠ [] := by
  unfold escChar
  dsimp only
  repeat' split
  all_goals simp

theorem escStr_length_ge (s : List Char) : s.length ≤ (escStr s).length := by
  induction s with
  | nil => simp [escStr]
  | cons c tl ih =>
    simp only [escStr, List.length_cons, List.length_append]
    have := List.length_pos.2 (escChar_ne_nil c)
    omega

theorem hexVal_hexDigit (k : Nat) (hk : k < 16) : hexVal (hexDigit k) = some k := by
  unfold hexVal hexDigit
  by_cases h10 : k < 10
  · rw [if_pos h10]
    rw [if_pos (by simp; omega)]
    congr 1
    omega
  · rw [if_neg h10]
    rw [if_neg (by simp; omega)]
    rw [if_pos (by simp; omega)]
    congr 1
    omega

theorem hex4Val_hex4 (n : Nat) (hn : n < 65536) :
    hex4Val (hexDigit (n / 4096 % 16)) (hexDigit (n / 256 % 16))
      (hexDigit (n / 16 % 16)) (hexDigit (n % 16)) = some n := by
  unfold hex4Val
  rw [hexVal_hexDigit _ (by omega), hexVal_hexDigit _ (by omega),
      hexVal_hexDigit _ (by omega), hexVal_hexDigit _ (by omega)]
  simp only [Option.bind_eq_bind, Option.some_bind]
  congr 1
  omega

theorem char_ofNat_toNat (c : Char) : Char.ofNat c.toNat = c := Char.ofNat_toNat c

theorem char_valid (c : Char) :
    c.toNat < 55296 ∨ (57343 < c.toNat ∧ c.toNat < 1114112) := by
  have h := c.valid
  unfold UInt32.isValidChar Nat.isValidChar at h
  exact h


theorem parseUEsc_cons4 (a b c d : Nat) (rest : List Nat) (v : Nat)
    (hv : hex4Val a b c d = some v) :
    parseUEsc (a :: b :: c :: d :: rest) =
      if (55296 ≤ v && v ≤ 56319) = true then parseLowSur v rest
      else if (56320 ≤ v && v ≤ 57343) = true then none
      else some (Char.ofNat v, rest) := by
  rw [parseUEsc, hv]
  rfl

theorem parseLowSur_cons (v a b c d : Nat) (rest : List Nat) (m : Nat)
    (hv : hex4Val a b c d = some m) :
    parseLowSur v (92 :: 117 :: a :: b :: c :: d :: rest) =
      if (56320 ≤ m && m ≤ 57343) = true then
        some (Char.ofNat (65536 + (v - 55296) * 1024 + (m - 56320)), rest)
      else none := by
  rw [parseLowSur, if_pos ⟨rfl, rfl⟩, hv]
  rfl

theorem parseUEsc_hex4 (n : Nat) (hlt : n < 65536) (hsur : n < 55296 ∨ 57343 < n)
    (r0 : List Nat) : parseUEsc (hex4 n ++ r0) = some (Char.ofNat n, r0) := by
  simp only [hex4, List.cons_append, List.nil_append]
  rw [parseUEsc_cons4 _ _ _ _ _ _ (hex4Val_hex4 n hlt)]
  have h1 : (55296 ≤ n && n ≤ 56319) = false := by
    rcases hsur with h | h <;> simp <;> omega
  have h2 : (56320 ≤ n && n ≤ 57343) = false := by
    rcases hsur with h | h <;> simp <;> omega
  rw [h1, h2]
  simp

theorem parseUEsc_hex4_pair (n : Nat) (h1 : 65536 ≤ n) (h2 : n < 1114112) (r0 : List Nat) :
    parseUEsc (hex4 (55296 + (n - 65536) / 1024) ++
      92 :: 117 :: (hex4 (56320 + (n - 65536) % 1024) ++ r0)) = some (Char.ofNat n, r0) := by
  have hq : (n - 65536) / 1024 < 1024 := by omega
  have hr : (n - 65536) % 1024 < 1024 := Nat.mod_lt _ (by omega)
  have hhi : 55296 + (n - 65536) / 1024 < 65536 := by omega
  have hlo : 56320 + (n - 65536) % 1024 < 65536 := by omega
  simp only [hex4, List.cons_append, List.nil_append]
  rw [parseUEsc_cons4 _ _ _ _ _ _ (hex4Val_hex4 _ hhi)]
  have hc1 : (55296 ≤ 55296 + (n - 65536) / 1024 &&
      55296 + (n - 65536) / 1024 ≤ 56319) = true := by
    simp only [Bool.and_eq_true, decide_eq_true_eq]
    omega
  rw [hc1, if_pos rfl]
  rw [parseLowSur_cons _ _ _ _ _ _ _ (hex4Val_hex4 _ hlo)]
  have hc2 : (56320 ≤ 56320 + (n - 65536) % 1024 &&
      56320 + (n - 65536) % 1024 ≤ 57343) = true := by
    simp only [Bool.and_eq_true, decide_eq_true_eq]
    omega
  rw [hc2, if_pos rfl]
  have hn : 65536 + (55296 + (n - 65536) / 1024 - 55296) * 1024 +
      (56320 + (n - 65536) % 1024 - 56320) = n := by
    have := Nat.div_add_mod (n - 65536) 1024
    omega
  rw [hn]

theorem parseStrBody_cons_esc (f e m : Nat) (hne : e ≠ 117) (hesc : escCode e = some m)
    (r0 rest : List Nat) (tl : List Char) (hbody : parseStrBody f r0 = some (tl, rest)) :
    parseStrBody (f + 1) (92 :: e :: r0) = some (Char.ofNat m :: tl, rest) := by
  rw [parseStrBody]
  rw [if_neg (by omega), if_pos rfl]
  have hpe : parseEsc (e :: r0) = some (Char.ofNat m, r0) := by
    rw [parseEsc]
    rw [if_neg hne, hesc]
    rfl
  rw [hpe]
  simp only [Option.bind_eq_bind, Option.some_bind]
  rw [hbody]
  rfl

theorem parseStrBody_cons_uesc (f n : Nat) (hlt : n < 65536) (hsur : n < 55296 ∨ 57343 < n)
    (r0 rest : List Nat) (tl : List Char) (hbody : parseStrBody f r0 = some (tl, rest)) :
    parseStrBody (f + 1) (92 :: 117 :: (hex4 n ++ r0)) = some (Char.ofNat n :: tl, rest) := by
  rw [parseStrBody]
  rw [if_neg (by omega), if_pos rfl]
  have hpe : parseEsc (117 :: (hex4 n ++ r0)) = some (Char.ofNat n, r0) := by
    rw [parseEsc]
    rw [if_pos rfl]
    exact parseUEsc_hex4 n hlt hsur r0
  rw [hpe]
  simp only [Option.bind_eq_bind, Option.some_bind]
  rw [hbody]
  rfl

theorem parseStrBody_cons_pair (f n : Nat) (h1 : 65536 ≤ n) (h2 : n < 1114112)
    (r0 rest : List Nat) (tl : List Char) (hbody : parseStrBody f r0 = some (tl, rest)) :
    parseStrBody (f + 1) (92 :: 117 :: (hex4 (55296 + (n - 65536) / 1024) ++
      92 :: 117 :: (hex4 (56320 + (n - 65536) % 1024) ++ r0))) =
      some (Char.ofNat n :: tl, rest) := by
  rw [parseStrBody]
  rw [if_neg (by omega), if_pos rfl]
  have hpe : parseEsc (117 :: (hex4 (55296 + (n - 65536) / 1024) ++
      92 :: 117 :: (hex4 (56320 + (n - 65536) % 1024) ++ r0))) = some (Char.ofNat n, r0) := by
    rw [parseEsc]
    rw [if_pos rfl]
    exact parseUEsc_hex4_pair n h1 h2 r0
  rw [hpe]
  simp only [Option.bind_eq_bind, Option.some_bind]
  rw [hbody]
  rfl

theorem parseStrBody_cons_ascii (f n : Nat) (h1 : 32 ≤ n) (h2 : n < 127)
    (h34 : n ≠ 34) (h92 : n ≠ 92) (r0 rest : List Nat) (tl : List Char)
    (hbody : parseStrBody f r0 = some (tl, rest)) :
    parseStrBody (f + 1) (n :: r0) = some (Char.ofNat n :: tl, rest) := by
  rw [parseStrBody]
  rw [if_neg h34, if_neg h92, if_neg (by omega), if_pos (by omega)]
  rw [hbody]
  rfl


theorem parseStrBody_ser : ∀ (s : List Char) (f : Nat) (rest : List Nat), s.length < f →
    parseStrBody f (escStr s ++ 34 :: rest) = some (s, rest) := by
  intro s
  induction s with
  | nil =>
    intro f rest hf
    obtain ⟨f0, rfl⟩ : ∃ g, f = g + 1 := ⟨f - 1, by omega⟩
    rw [show escStr [] ++ 34 :: rest = 34 :: rest from rfl]
    rw [parseStrBody, if_pos rfl]
  | cons c tl ih =>
    intro f rest hf
    obtain ⟨f0, rfl⟩ : ∃ g, f = g + 1 := ⟨f - 1, by omega⟩
    have hih := ih f0 rest (by simp only [List.length_cons] at hf; omega)
    rw [show escStr (c :: tl) ++ 34 :: rest = escChar c ++ (escStr tl ++ 34 :: rest) from
      by simp [escStr]]
    by_cases h34 : c.toNat = 34
    · rw [show escChar c = [92, 34] from by simp only [escChar]; rw [if_pos h34]]
      simp only [List.cons_append, List.nil_append]
      rw [parseStrBody_cons_esc f0 34 34 (by omega) (by decide) _ _ _ hih]
      rw [show Char.ofNat 34 = c from by rw [← h34]; exact char_ofNat_toNat c]
    · by_cases h92 : c.toNat = 92
      · rw [show escChar c = [92, 92] from by
          simp only [escChar]; rw [if_neg h34, if_pos h92]]
        simp only [List.cons_append, List.nil_append]
        rw [parseStrBody_cons_esc f0 92 92 (by omega) (by decide) _ _ _ hih]
        rw [show Char.ofNat 92 = c from by rw [← h92]; exact char_ofNat_toNat c]
      · by_cases h8 : c.toNat = 8
        · rw [show escChar c = [92, 98] from by
            simp only [escChar]; rw [if_neg h34, if_neg h92, if_pos h8]]
          simp only [List.cons_append, List.nil_append]
          rw [parseStrBody_cons_esc f0 98 8 (by omega) (by decide) _ _ _ hih]
          rw [show Char.ofNat 8 = c from by rw [← h8]; exact char_ofNat_toNat c]
        · by_cases h9 : c.toNat = 9
          · rw [show escChar c = [92, 116] from by
              simp only [escChar]; rw [if_neg h34, if_neg h92, if_neg h8, if_pos h9]]
            simp only [List.cons_append, List.nil_append]
            rw [parseStrBody_cons_esc f0 116 9 (by omega) (by decide) _ _ _ hih]
            rw [show Char.ofNat 9 = c from by rw [← h9]; exact char_ofNat_toNat c]
          · by_cases h10 : c.toNat = 10
            · rw [show escChar c = [92, 110] from by
                simp only [escChar]
                rw [if_neg h34, if_neg h92, if_neg h8, if_neg h9, if_pos h10]]
              simp only [List.cons_append, List.nil_append]
              rw [parseStrBody_cons_esc f0 110 10 (by omega) (by decide) _ _ _ hih]
              rw [show Char.ofNat 10 = c from by rw [← h10]; exact char_ofNat_toNat c]
            · by_cases h12 : c.toNat = 12
              · rw [show escChar c = [92, 102] from by
                  simp only [escChar]
                  rw [if_neg h34, if_neg h92, if_neg h8, if_neg h9, if_neg h10, if_pos h12]]
                simp only [List.cons_append, List.nil_append]
                rw [parseStrBody_cons_esc f0 102 12 (by omega) (by decide) _ _ _ hih]
                rw [show Char.ofNat 12 = c from by rw [← h12]; exact char_ofNat_toNat c]
              · by_cases h13 : c.toNat = 13
                · rw [show escChar c = [92, 114] from by
                    simp only [escChar]
                    rw [if_neg h34, if_neg h92, if_neg h8, if_neg h9, if_neg h10,
                        if_neg h12, if_pos h13]]
                  simp only [List.cons_append, List.nil_append]
                  rw [parseStrBody_cons_esc f0 114 13 (by omega) (by decide) _ _ _ hih]
                  rw [show Char.ofNat 13 = c from by rw [← h13]; exact char_ofNat_toNat c]
                · by_cases hctl : c.toNat < 32
                  · rw [show escChar c = 92 :: 117 :: hex4 c.toNat from by
                      simp only [escChar]
                      rw [if_neg h34, if_neg h92, if_neg h8, if_neg h9, if_neg h10,
                          if_neg h12, if_neg h13, if_pos hctl]]
                    simp only [List.cons_append]
                    rw [parseStrBody_cons_uesc f0 c.toNat (by omega) (Or.inl (by omega))
                      _ _ _ hih]
                    rw [char_ofNat_toNat c]
                  · by_cases hasc : c.toNat < 127
                    · rw [show escChar c = [c.toNat] from by
                        simp only [escChar]
                        rw [if_neg h34, if_neg h92, if_neg h8, if_neg h9, if_neg h10,
                            if_neg h12, if_neg h13, if_neg hctl, if_pos hasc]]
                      simp only [List.cons_append, List.nil_append]
                      rw [parseStrBody_cons_ascii f0 c.toNat (by omega) hasc h34 h92
                        _ _ _ hih]
                      rw [char_ofNat_toNat c]
                    · by_cases hbmp : c.toNat < 65536
                      · rw [show escChar c = 92 :: 117 :: hex4 c.toNat from by
                          simp only [escChar]
                          rw [if_neg h34, if_neg h92, if_neg h8, if_neg h9, if_neg h10,
                              if_neg h12, if_neg h13, if_neg hctl, if_neg hasc, if_pos hbmp]]
                        simp only [List.cons_append]
                        have hsur : c.toNat < 55296 ∨ 57343 < c.toNat := by
                          rcases char_valid c with h | h
                          · exact Or.inl h
                          · exact Or.inr h.1
                        rw [parseStrBody_cons_uesc f0 c.toNat hbmp hsur _ _ _ hih]
                        rw [char_ofNat_toNat c]
                      · rw [show escChar c =
                            92 :: 117 :: hex4 (55296 + (c.toNat - 65536) / 1024) ++
                            92 :: 117 :: hex4 (56320 + (c.toNat - 65536) % 1024) from by
                          simp only [escChar]
                          rw [if_neg h34, if_neg h92, if_neg h8, if_neg h9, if_neg h10,
                              if_neg h12, if_neg h13, if_neg hctl, if_neg hasc, if_neg hbmp]]
                        simp only [List.cons_append, List.append_assoc]
                        have hhi : c.toNat < 1114112 := by
                          rcases char_valid c with h | h
                          · omega
                          · exact h.2
                        rw [parseStrBody_cons_pair f0 c.toNat (by omega) hhi _ _ _ hih]
                        rw [char_ofNat_toNat c]


theorem parseF_val_null (f : Nat) (cs : List Nat) (x1 x2 x3 : Nat) (r : List Nat)
    (hskip : skipWs cs = 110 :: x1 :: x2 :: x3 :: r)
    (h : x1 = 117 ∧ x2 = 108 ∧ x3 = 108) :
    parseF (f + 1) .val cs = some (.null, r) := by
  rw [parseF, hskip]
  dsimp only
  rw [if_pos rfl, if_pos h]

theorem parseF_val_true (f : Nat) (cs : List Nat) (x1 x2 x3 : Nat) (r : List Nat)
    (hskip : skipWs cs = 116 :: x1 :: x2 :: x3 :: r)
    (h : x1 = 114 ∧ x2 = 117 ∧ x3 = 101) :
    parseF (f + 1) .val cs = some (.bool true, r) := by
  rw [parseF, hskip]
  dsimp only
  rw [if_neg (by omega), if_pos rfl, if_pos h]

theorem parseF_val_false (f : Nat) (cs : List Nat) (x1 x2 x3 x4 : Nat) (r : List Nat)
    (hskip : skipWs cs = 102 :: x1 :: x2 :: x3 :: x4 :: r)
    (h : x1 = 97 ∧ x2 = 108 ∧ x3 = 115 ∧ x4 = 101) :
    parseF (f + 1) .val cs = some (.bool false, r) := by
  rw [parseF, hskip]
  dsimp only
  rw [if_neg (by omega), if_neg (by omega), if_pos rfl, if_pos h]

theorem parseF_val_str (f : Nat) (cs kr : List Nat) (hskip : skipWs cs = 34 :: kr)
    (s : List Char) (r : List Nat) (hbody : parseStrBody (kr.length + 1) kr = some (s, r)) :
    parseF (f + 1) .val cs = some (.str s, r) := by
  rw [parseF, hskip]
  dsimp only
  rw [if_neg (by omega), if_neg (by omega), if_neg (by omega), if_pos rfl, hbody]
  rfl

theorem parseF_val_arr (f : Nat) (cs rest : List Nat) (hskip : skipWs cs = 91 :: rest) :
    parseF (f + 1) .val cs =
      (if (skipWs rest).head? = some 93 then some (.arr .nil, (skipWs rest).tail)
       else parseF f .elems (skipWs rest)) := by
  rw [parseF, hskip]
  dsimp only
  rw [if_neg (by omega), if_neg (by omega), if_neg (by omega), if_neg (by omega), if_pos rfl]

theorem parseF_val_obj (f : Nat) (cs rest : List Nat) (hskip : skipWs cs = 123 :: rest) :
    parseF (f + 1) .val cs =
      (if (skipWs rest).head? = some 125 then some (.obj .nil, (skipWs rest).tail)
       else parseF f .membs (skipWs rest)) := by
  rw [parseF, hskip]
  dsimp only
  rw [if_neg (by omega), if_neg (by omega), if_neg (by omega), if_neg (by omega),
      if_neg (by omega), if_pos rfl]

theorem parseF_val_num (f : Nat) (cs : List Nat) (c0 : Nat) (rest : List Nat)
    (hskip : skipWs cs = c0 :: rest)
    (hc : c0 = 45 ∨ (48 ≤ c0 ∧ c0 ≤ 57))
    (n : Int) (r : List Nat) (htok : parseIntTok (c0 :: rest) = some (n, r)) :
    parseF (f + 1) .val cs = some (.num n, r) := by
  rw [parseF, hskip]
  dsimp only
  rw [if_neg (by omega), if_neg (by omega), if_neg (by omega), if_neg (by omega),
      if_neg (by omega), if_neg (by omega), htok]
  rfl

theorem parseF_elems_last (f : Nat) (cs : List Nat) (v : Json) (r rest : List Nat)
    (hval : parseF f .val cs = some (v, r)) (hr : skipWs r = 93 :: rest) :
    parseF (f + 1) .elems cs = some (.arr (.cons v .nil), rest) := by
  rw [parseF, hval]
  simp only [Option.bind_eq_bind, Option.some_bind]
  rw [hr]
  dsimp only
  rw [if_neg (by omega), if_pos rfl]

theorem parseF_elems_cons (f : Nat) (cs : List Nat) (v : Json) (r r2 : List Nat)
    (hval : parseF f .val cs = some (v, r)) (hr : skipWs r = 44 :: r2)
    (tl : JList) (r3 : List Nat) (hrec : parseF f .elems r2 = some (.arr tl, r3)) :
    parseF (f + 1) .elems cs = some (.arr (.cons v tl), r3) := by
  rw [parseF, hval]
  simp only [Option.bind_eq_bind, Option.some_bind]
  rw [hr]
  dsimp only
  rw [if_pos rfl, hrec]

theorem parseF_membs_last (f : Nat) (cs kr : List Nat) (hskip : skipWs cs = 34 :: kr)
    (k : List Char) (r : List Nat) (hkey : parseStrBody (kr.length + 1) kr = some (k, r))
    (r2 : List Nat) (hcolon : skipWs r = 58 :: r2)
    (v : Json) (r3 : List Nat) (hval : parseF f .val r2 = some (v, r3))
    (rest : List Nat) (hend : skipWs r3 = 125 :: rest) :
    parseF (f + 1) .membs cs = some (.obj (.cons k v .nil), rest) := by
  rw [parseF, hskip]
  dsimp only
  rw [if_pos rfl, hkey]
  simp only [Option.bind_eq_bind, Option.some_bind]
  rw [hcolon]
  dsimp only
  rw [if_pos rfl, hval]
  simp only [Option.bind_eq_bind, Option.some_bind]
  rw [hend]
  dsimp only
  rw [if_neg (by omega), if_pos rfl]

theorem parseF_membs_cons (f : Nat) (cs kr : List Nat) (hskip : skipWs cs = 34 :: kr)
    (k : List Char) (r : List Nat) (hkey : parseStrBody (kr.length + 1) kr = some (k, r))
    (r2 : List Nat) (hcolon : skipWs r = 58 :: r2)
    (v : Json) (r3 : List Nat) (hval : parseF f .val r2 = some (v, r3))
    (r4 : List Nat) (hcomma : skipWs r3 = 44 :: r4)
    (tl : JObj) (r5 : List Nat) (hrec : parseF f .membs r4 = some (.obj tl, r5)) :
    parseF (f + 1) .membs cs = some (.obj (.cons k v tl), r5) := by
  rw [parseF, hskip]
  dsimp only
  rw [if_pos rfl, hkey]
  simp only [Option.bind_eq_bind, Option.some_bind]
  rw [hcolon]
  dsimp only
  rw [if_pos rfl, hval]
  simp only [Option.bind_eq_bind, Option.some_bind]
  rw [hcomma]
  dsimp only
  rw [if_pos rfl, hrec]


theorem serInt_head (n : Int) : ∃ c0 cs0, serInt n = c0 :: cs0 ∧
    (c0 = 45 ∨ (48 ≤ c0 ∧ c0 ≤ 57)) := by
  unfold serInt
  split
  · exact ⟨45, serNat n.natAbs, rfl, Or.inl rfl⟩
  · obtain ⟨c0, cs0, hc⟩ := List.exists_cons_of_ne_nil (serNat_ne_nil n.natAbs)
    refine ⟨c0, cs0, hc, Or.inr ?_⟩
    have hd : isDigitB c0 = true := serNat_digits n.natAbs c0 (by rw [hc]; simp)
    unfold isDigitB at hd
    simp only [Bool.and_eq_true, decide_eq_true_eq] at hd
    exact hd

theorem dumps_head (j : Json) : ∃ c0 cs0, dumps j = c0 :: cs0 ∧
    isWs c0 = false ∧ c0 ≠ 93 ∧ c0 ≠ 125 := by
  cases j with
  | null => exact ⟨110, _, rfl, by decide, by decide, by decide⟩
  | bool b =>
    cases b with
    | true => exact ⟨116, _, rfl, by decide, by decide, by decide⟩
    | false => exact ⟨102, _, rfl, by decide, by decide, by decide⟩
  | num n =>
    obtain ⟨c0, cs0, hc, hd⟩ := serInt_head n
    refine ⟨c0, cs0, hc, ?_, ?_, ?_⟩
    · unfold isWs
      rcases hd with h | h <;> simp <;> omega
    · rcases hd with h | h <;> omega
    · rcases hd with h | h <;> omega
  | str s => exact ⟨34, _, rfl, by decide, by decide, by decide⟩
  | arr xs =>
    cases xs with
    | nil => exact ⟨91, _, rfl, by decide, by decide, by decide⟩
    | cons x tl => exact ⟨91, _, rfl, by decide, by decide, by decide⟩
  | obj xs =>
    cases xs with
    | nil => exact ⟨123, _, rfl, by decide, by decide, by decide⟩
    | cons k v tl => exact ⟨123, _, rfl, by decide, by decide, by decide⟩

theorem delimOk_dumpsL (tl : JList) (rest : List Nat) :
    delimOk (dumpsL tl ++ 93 :: rest) := by
  cases tl with
  | nil => simp [dumpsL, delimOk]
  | cons x tl2 => simp [dumpsL, delimOk]

theorem delimOk_dumpsO (tl : JObj) (rest : List Nat) :
    delimOk (dumpsO tl ++ 125 :: rest) := by
  cases tl with
  | nil => simp [dumpsO, delimOk]
  | cons k v tl2 => simp [dumpsO, delimOk]

theorem delimOk_numDelim (rest : List Nat) (h : delimOk rest) : numDelim rest := by
  intro c hc
  cases rest with
  | nil => simp at hc
  | cons c0 t =>
    simp only [List.head?_cons, Option.mem_def, Option.some.injEq] at hc
    subst hc
    unfold delimOk at h
    unfold isDigitB
    rcases h with h | h | h <;> subst h <;> refine ⟨by decide, by decide, by decide, by decide, by decide⟩

theorem allWs_nil : allWs [] := by
  intro c hc
  simp at hc

theorem allWs_space : allWs [32] := by
  intro c hc
  simp at hc
  subst hc
  decide


theorem parseF_rt : ∀ f : Nat,
    (∀ (j : Json) (ws rest : List Nat), sz j ≤ f → allWs ws → delimOk rest →
      parseF f .val (ws ++ (dumps j ++ rest)) = some (j, rest)) ∧
    (∀ (x : Json) (tl : JList) (ws rest : List Nat), 1 + sz x + szL tl ≤ f → allWs ws →
      parseF f .elems (ws ++ (dumps x ++ (dumpsL tl ++ 93 :: rest))) =
        some (.arr (.cons x tl), rest)) ∧
    (∀ (k : List Char) (v : Json) (tl : JObj) (ws rest : List Nat),
      1 + sz v + szO tl ≤ f → allWs ws →
      parseF f .membs
          (ws ++ (serStr k ++ (58 :: 32 :: (dumps v ++ (dumpsO tl ++ 125 :: rest))))) =
        some (.obj (.cons k v tl), rest)) := by
  intro f
  induction f with
  | zero =>
    refine ⟨?_, ?_, ?_⟩
    · intro j ws rest hsz _ _
      exact absurd hsz (by have := sz_pos j; omega)
    · intro x tl ws rest hsz _
      exact absurd hsz (by omega)
    · intro k v tl ws rest hsz _
      exact absurd hsz (by omega)
  | succ f ih =>
    obtain ⟨IV, IE, IM⟩ := ih
    refine ⟨?_, ?_, ?_⟩
    · intro j ws rest hsz hws hdelim
      cases j with
      | null =>
        refine parseF_val_null f _ 117 108 108 rest ?_ ⟨rfl, rfl, rfl⟩
        rw [skipWs_append_ws ws _ hws]
        rw [show dumps .null ++ rest = 110 :: 117 :: 108 :: 108 :: rest from rfl]
        exact skipWs_cons_not_ws _ (by decide)
      | bool b =>
        cases b with
        | true =>
          refine parseF_val_true f _ 114 117 101 rest ?_ ⟨rfl, rfl, rfl⟩
          rw [skipWs_append_ws ws _ hws]
          rw [show dumps (.bool true) ++ rest = 116 :: 114 :: 117 :: 101 :: rest from rfl]
          exact skipWs_cons_not_ws _ (by decide)
        | false =>
          refine parseF_val_false f _ 97 108 115 101 rest ?_ ⟨rfl, rfl, rfl, rfl⟩
          rw [skipWs_append_ws ws _ hws]
          rw [show dumps (.bool false) ++ rest = 102 :: 97 :: 108 :: 115 :: 101 :: rest from
            rfl]
          exact skipWs_cons_not_ws _ (by decide)
      | num n =>
        obtain ⟨c0, cs0, hc, hd⟩ := serInt_head n
        have hdin : dumps (.num n) ++ rest = c0 :: (cs0 ++ rest) := by
          rw [show dumps (.num n) = serInt n from rfl, hc]
          rfl
        refine parseF_val_num f _ c0 (cs0 ++ rest) ?_ hd n rest ?_
        · rw [skipWs_append_ws ws _ hws, hdin]
          refine skipWs_cons_not_ws _ ?_
          unfold isWs
          rcases hd with h | h <;> simp <;> omega
        · rw [show c0 :: (cs0 ++ rest) = serInt n ++ rest from by rw [hc]; rfl]
          exact parseIntTok_ser n rest (delimOk_numDelim rest hdelim)
      | str s =>
        have hdin : dumps (.str s) ++ rest = 34 :: (escStr s ++ 34 :: rest) := by
          rw [show dumps (.str s) = serStr s from rfl]
          unfold serStr
          simp
        refine parseF_val_str f _ (escStr s ++ 34 :: rest) ?_ s rest ?_
        · rw [skipWs_append_ws ws _ hws, hdin]
          exact skipWs_cons_not_ws _ (by decide)
        · refine parseStrBody_ser s _ rest ?_
          have h1 := escStr_length_ge s
          simp only [List.length_append, List.length_cons]
          omega
      | arr xs =>
        cases xs with
        | nil =>
          have hskip : skipWs (ws ++ (dumps (.arr .nil) ++ rest)) = 91 :: (93 :: rest) := by
            rw [skipWs_append_ws ws _ hws]
            rw [show dumps (.arr .nil) ++ rest = 91 :: 93 :: rest from rfl]
            exact skipWs_cons_not_ws _ (by decide)
          rw [parseF_val_arr f _ _ hskip]
          rw [skipWs_cons_not_ws _ (by decide)]
          rw [if_pos (show (93 :: rest).head? = some 93 from rfl)]
          rfl
        | cons x tl =>
          have hin : dumps (.arr (.cons x tl)) ++ rest =
              91 :: (dumps x ++ (dumpsL tl ++ 93 :: rest)) := by
            simp only [dumps]
            simp
          have hskip : skipWs (ws ++ (dumps (.arr (.cons x tl)) ++ rest)) =
              91 :: (dumps x ++ (dumpsL tl ++ 93 :: rest)) := by
            rw [skipWs_append_ws ws _ hws, hin]
            exact skipWs_cons_not_ws _ (by decide)
          rw [parseF_val_arr f _ _ hskip]
          obtain ⟨c0, cs0, hc, hnw, h93, _⟩ := dumps_head x
          have hin2 : dumps x ++ (dumpsL tl ++ 93 :: rest) =
              c0 :: (cs0 ++ (dumpsL tl ++ 93 :: rest)) := by
            rw [hc]
            rfl
          rw [hin2, skipWs_cons_not_ws _ hnw]
          rw [if_neg (by simp [h93])]
          rw [← hin2]
          have hE := IE x tl [] rest (by simp only [sz, szL] at hsz; omega) allWs_nil
          rw [List.nil_append] at hE
          exact hE
      | obj xs =>
        cases xs with
        | nil =>
          have hskip : skipWs (ws ++ (dumps (.obj .nil) ++ rest)) = 123 :: (125 :: rest) := by
            rw [skipWs_append_ws ws _ hws]
            rw [show dumps (.obj .nil) ++ rest = 123 :: 125 :: rest from rfl]
            exact skipWs_cons_not_ws _ (by decide)
          rw [parseF_val_obj f _ _ hskip]
          rw [skipWs_cons_not_ws _ (by decide)]
          rw [if_pos (show (125 :: rest).head? = some 125 from rfl)]
          rfl
        | cons k v tl =>
          have hin : dumps (.obj (.cons k v tl)) ++ rest =
              123 :: (serStr k ++ (58 :: 32 :: (dumps v ++ (dumpsO tl ++ 125 :: rest)))) := by
            simp only [dumps]
            simp
          have hskip : skipWs (ws ++ (dumps (.obj (.cons k v tl)) ++ rest)) =
              123 :: (serStr k ++ (58 :: 32 :: (dumps v ++ (dumpsO tl ++ 125 :: rest)))) := by
            rw [skipWs_append_ws ws _ hws, hin]
            exact skipWs_cons_not_ws _ (by decide)
          rw [parseF_val_obj f _ _ hskip]
          have hin2 : serStr k ++ (58 :: 32 :: (dumps v ++ (dumpsO tl ++ 125 :: rest))) =
              34 :: (escStr k ++ 34 :: (58 :: 32 :: (dumps v ++ (dumpsO tl ++ 125 :: rest)))) := by
            unfold serStr
            simp
          rw [hin2, skipWs_cons_not_ws _ (by decide)]
          rw [if_neg (by simp)]
          rw [← hin2]
          have hM := IM k v tl [] rest (by simp only [sz, szO] at hsz; omega) allWs_nil
          rw [List.nil_append] at hM
          exact hM
    · intro x tl ws rest hsz hws
      have hval := IV x ws (dumpsL tl ++ 93 :: rest) (by omega) hws (delimOk_dumpsL tl rest)
      cases tl with
      | nil =>
        refine parseF_elems_last f _ x _ rest hval ?_
        rw [show dumpsL .nil ++ 93 :: rest = 93 :: rest from rfl]
        exact skipWs_cons_not_ws _ (by decide)
      | cons y tl2 =>
        have hr : skipWs (dumpsL (.cons y tl2) ++ 93 :: rest) =
            44 :: (32 :: (dumps y ++ (dumpsL tl2 ++ 93 :: rest))) := by
          rw [show dumpsL (.cons y tl2) ++ 93 :: rest =
              44 :: (32 :: (dumps y ++ (dumpsL tl2 ++ 93 :: rest))) from by
            simp only [dumpsL]
            simp]
          exact skipWs_cons_not_ws _ (by decide)
        refine parseF_elems_cons f _ x _ _ hval hr (.cons y tl2) rest ?_
        have hE := IE y tl2 [32] rest (by simp only [szL] at hsz; omega) allWs_space
        simp only [List.cons_append, List.nil_append] at hE
        exact hE
    · intro k v tl ws rest hsz hws
      have hskip : skipWs (ws ++ (serStr k ++
          (58 :: 32 :: (dumps v ++ (dumpsO tl ++ 125 :: rest))))) =
          34 :: (escStr k ++ 34 :: (58 :: 32 :: (dumps v ++ (dumpsO tl ++ 125 :: rest)))) := by
        rw [skipWs_append_ws ws _ hws]
        rw [show serStr k ++ (58 :: 32 :: (dumps v ++ (dumpsO tl ++ 125 :: rest))) =
            34 :: (escStr k ++ 34 :: (58 :: 32 :: (dumps v ++ (dumpsO tl ++ 125 :: rest)))) from by
          unfold serStr
          simp]
        exact skipWs_cons_not_ws _ (by decide)
      have hkey : parseStrBody
          ((escStr k ++ 34 :: (58 :: 32 :: (dumps v ++ (dumpsO tl ++ 125 :: rest)))).length + 1)
          (escStr k ++ 34 :: (58 :: 32 :: (dumps v ++ (dumpsO tl ++ 125 :: rest)))) =
          some (k, 58 :: 32 :: (dumps v ++ (dumpsO tl ++ 125 :: rest))) := by
        refine parseStrBody_ser k _ _ ?_
        have h1 := escStr_length_ge k
        simp only [List.length_append, List.length_cons]
        omega
      have hcolon : skipWs (58 :: 32 :: (dumps v ++ (dumpsO tl ++ 125 :: rest))) =
          58 :: (32 :: (dumps v ++ (dumpsO tl ++ 125 :: rest))) :=
        skipWs_cons_not_ws _ (by decide)
      have hval : parseF f .val (32 :: (dumps v ++ (dumpsO tl ++ 125 :: rest))) =
          some (v, dumpsO tl ++ 125 :: rest) := by
        have hV := IV v [32] (dumpsO tl ++ 125 :: rest) (by omega) allWs_space
          (delimOk_dumpsO tl rest)
        simp only [List.cons_append, List.nil_append] at hV
        exact hV
      cases tl with
      | nil =>
        refine parseF_membs_last f _ _ hskip k _ hkey _ hcolon v _ hval rest ?_
        rw [show dumpsO .nil ++ 125 :: rest = 125 :: rest from rfl]
        exact skipWs_cons_not_ws _ (by decide)
      | cons k2 v2 tl2 =>
        have hcomma : skipWs (dumpsO (.cons k2 v2 tl2) ++ 125 :: rest) =
            44 :: (32 :: (serStr k2 ++
              (58 :: 32 :: (dumps v2 ++ (dumpsO tl2 ++ 125 :: rest))))) := by
          rw [show dumpsO (.cons k2 v2 tl2) ++ 125 :: rest =
              44 :: (32 :: (serStr k2 ++
                (58 :: 32 :: (dumps v2 ++ (dumpsO tl2 ++ 125 :: rest))))) from by
            simp only [dumpsO]
            simp]
          exact skipWs_cons_not_ws _ (by decide)
        refine parseF_membs_cons f _ _ hskip k _ hkey _ hcolon v _ hval _ hcomma
          (.cons k2 v2 tl2) rest ?_
        have hM := IM k2 v2 tl2 [32] rest (by simp only [szO] at hsz; omega) allWs_space
        simp only [List.cons_append, List.nil_append] at hM
        exact hM


theorem jsonLoads_dumps (j : Json) : jsonLoads (dumps j) = .ok j := by
  have h := (parseF_rt (2 * (dumps j).length + 2)).1 j [] []
    (by have := szBound j; omega) allWs_nil trivial
  rw [List.nil_append, List.append_nil] at h
  unfold jsonLoads
  rw [h]
  rfl

theorem header_rt (h : UDPHeader) (hlo : -(2 ^ 31) ≤ h.SEQN) (hhi : h.SEQN < 2 ^ 31)
    (tail : List Nat) : UDPHeader.from_bytesE (headerBytes h ++ tail) = .ok h := by
  obtain ⟨seqn, ack, syn, fin⟩ := h
  dsimp only at hlo hhi
  simp only [headerBytes, List.cons_append, List.nil_append]
  simp only [UDPHeader.from_bytesE, Except.ok.injEq, UDPHeader.mk.injEq]
  refine ⟨?_, ?_, ?_, ?_⟩
  · split <;> omega
  · cases ack <;> decide
  · cases syn <;> decide
  · cases fin <;> decide

theorem msgTypeE_ok_of_body (b : Json) (hb : b = .null ∨ ∃ kvs, b = .obj kvs) :
    ∃ t, msgTypeE b = .ok t := by
  rcases hb with rfl | ⟨kvs, rfl⟩
  · exact ⟨none, rfl⟩
  · cases kvs with
    | nil => exact ⟨none, rfl⟩
    | cons k v tl =>
      unfold msgTypeE
      rw [if_pos (show truthy (.obj (.cons k v tl)) = true from rfl)]
      dsimp only
      split
      · exact ⟨_, rfl⟩
      · exact ⟨none, rfl⟩

/-- Claim C3, confirmed: for every header whose sequence number lies in the
signed 32-bit range and every body that is absent (None, encoded as the
JSON text null) or a dict, decoding the bytes produced by encoding the
message returns the same header and the same body: the header packs and
unpacks to itself, the payload is the json.dumps rendering of the body,
and json.loads parses that rendering back to the body. -/
theorem frame_codec_round_trip (h : UDPHeader) (b : Json) (t : Option MessageType)
    (hlo : -(2 ^ 31) ≤ h.SEQN) (hhi : h.SEQN < 2 ^ 31)
    (hb : b = .null ∨ ∃ kvs, b = .obj kvs) :
    ((UDPMessage.to_bytesE ⟨h, b, t⟩).bind UDPMessage.from_bytesE).map
      (fun m => (m.header, m.data)) = .ok (h, b) := by
  have hhdr : UDPHeader.to_bytesE h = .ok (headerBytes h) := by
    unfold UDPHeader.to_bytesE
    rw [if_neg (by simp only [Bool.or_eq_true, decide_eq_true_eq]; omega)]
  unfold UDPMessage.to_bytesE
  rw [show (⟨h, b, t⟩ : UDPMessage).header = h from rfl,
      show (⟨h, b, t⟩ : UDPMessage).data = b from rfl]
  rw [hhdr]
  simp only [bind, Except.bind]
  unfold UDPMessage.from_bytesE
  rw [header_rt h hlo hhi (dumps b)]
  simp only [bind, Except.bind]
  have hdrop : (headerBytes h ++ dumps b).drop HEADER_SIZE = dumps b := by
    rw [show HEADER_SIZE = (headerBytes h).length from by
      rw [headerBytes_length]
      rfl]
    exact List.drop_left _ _
  rw [hdrop]
  have hne : (dumps b).isEmpty = false := by
    cases hd : dumps b with
    | nil => exact absurd hd (dumps_ne_nil b)
    | cons c cs => rfl
  rw [if_neg (by rw [hne]; simp)]
  rw [jsonLoads_dumps b]
  simp only [bind, Except.bind]
  obtain ⟨ty, hty⟩ := msgTypeE_ok_of_body b hb
  rw [hty]
  rfl

/-- Witness for claim C3 at a concrete header with a negative sequence
number and a one-key dict body. -/
theorem frame_codec_round_trip_witness :
    ((UDPMessage.to_bytesE ⟨⟨-3, true, false, true⟩,
        .obj (.cons "type".toList (.str "CHT".toList) .nil), none⟩).bind
      UDPMessage.from_bytesE).map (fun m => (m.header, m.data)) =
      .ok (⟨-3, true, false, true⟩,
        .obj (.cons "type".toList (.str "CHT".toList) .nil)) :=
  frame_codec_round_trip ⟨-3, true, false, true⟩
    (.obj (.cons "type".toList (.str "CHT".toList) .nil)) none
    (by decide) (by decide) (Or.inr ⟨_, rfl⟩)

end UdpChat
